import Mathlib

/-!
Shallow embedding of the AF-Serializer LabVIEW "flattened data" codec
(src/src/basic_types.py, src/src/compound_types.py, src/src/objects.py,
src/af_serializer/decorators.py) and proofs about it.

Byte streams are lists of naturals (each entry a byte value); strings are
modeled as their encoded byte lists, since the text codec is an injected
byte-preserving strategy (latin-1).  IEEE-754 float values are modeled by
their big-endian bit patterns: construct Float64b/Float32b writes exactly
the 8/4 pattern bytes, so the wire codec is the identity on patterns.
Fallible Python operations (construct raising on out-of-range values or
truncated streams) are modeled with Option.
-/

/-- Big-endian encoding of a natural into nbytes bytes, least byte last.
Mirrors construct FormatField build for IntNNub. -/
def natToBe : Nat → Nat → List Nat
  | 0, _ => []
  | k + 1, n => natToBe k (n / 256) ++ [n % 256]

/-- Big-endian value of a byte list, as construct FormatField parse reads it. -/
def beVal (bs : List Nat) : Nat := bs.foldl (fun a b => a * 256 + b) 0

/-- Reads exactly n bytes from the stream; fails (construct StreamError) when
fewer remain. -/
def readBytes (n : Nat) (s : List Nat) : Option (List Nat × List Nat) :=
  if n ≤ s.length then some (s.take n, s.drop n) else none

/-- Int32ub.parse_stream. -/
def readU32 (s : List Nat) : Option (Nat × List Nat) :=
  (readBytes 4 s).map (fun p => (beVal p.1, p.2))

/-- Int16ub.parse_stream. -/
def readU16 (s : List Nat) : Option (Nat × List Nat) :=
  (readBytes 2 s).map (fun p => (beVal p.1, p.2))

/-- Int32ub.build bytes (total: the caller checks the range). -/
def u32be (n : Nat) : List Nat := natToBe 4 n

/-- Int16ub.build bytes. -/
def u16be (n : Nat) : List Nat := natToBe 2 n

/-- Signed big-endian integer encode (IntNNsb.build): range-checked
two's-complement, as struct.pack does. -/
def intEnc (nbytes : Nat) (v : Int) : Option (List Nat) :=
  if -(2 ^ (8 * nbytes - 1) : Int) ≤ v ∧ v < 2 ^ (8 * nbytes - 1) then
    some (natToBe nbytes (if 0 ≤ v then v.toNat else (v + 2 ^ (8 * nbytes)).toNat))
  else none

/-- Signed big-endian integer decode (IntNNsb.parse_stream). -/
def intDec (nbytes : Nat) (s : List Nat) : Option (Int × List Nat) :=
  match readBytes nbytes s with
  | none => none
  | some (bs, rest) =>
    let u := beVal bs
    some (if u < 2 ^ (8 * nbytes - 1) then (u : Int) else (u : Int) - 2 ^ (8 * nbytes), rest)

/-- Unsigned big-endian integer encode (IntNNub.build): range-checked. -/
def uintEnc (nbytes : Nat) (n : Nat) : Option (List Nat) :=
  if n < 2 ^ (8 * nbytes) then some (natToBe nbytes n) else none

/-- Unsigned big-endian integer decode (IntNNub.parse_stream). -/
def uintDec (nbytes : Nat) (s : List Nat) : Option (Nat × List Nat) :=
  (readBytes nbytes s).map (fun p => (beVal p.1, p.2))

/-- BooleanAdapter encode (src/src/basic_types.py lines 109-111): one byte,
1 for true and 0 for false. -/
def boolEnc (b : Bool) : List Nat := [if b then 1 else 0]

/-- BooleanAdapter decode (src/src/basic_types.py lines 103-107): reads one
byte and raises ValidationError unless it is 0 or 1. -/
def boolDec (s : List Nat) : Option (Bool × List Nat) :=
  match s with
  | [] => none
  | b :: rest => if b = 0 then some (false, rest) else if b = 1 then some (true, rest) else none

/-- LVString encode: PascalString(Int32ub) build, a u32 byte length then the
bytes of the injected text encoding (modeled as the bytes themselves). -/
def strEnc (bs : List Nat) : Option (List Nat) :=
  if bs.length < 2 ^ 32 then some (u32be bs.length ++ bs) else none

/-- LVString decode: PascalString(Int32ub) parse. -/
def strDec (s : List Nat) : Option (List Nat × List Nat) :=
  match readU32 s with
  | none => none
  | some (n, rest) => readBytes n rest

/- Basic lemmas about the byte primitives. -/

theorem natToBe_length (k n : Nat) : (natToBe k n).length = k := by
  induction k generalizing n with
  | zero => simp [natToBe]
  | succ k ih => simp [natToBe, ih]

theorem beVal_append (xs : List Nat) (b : Nat) :
    beVal (xs ++ [b]) = beVal xs * 256 + b := by
  simp [beVal, List.foldl_append]

theorem beVal_natToBe (k n : Nat) (h : n < 2 ^ (8 * k)) : beVal (natToBe k n) = n := by
  induction k generalizing n with
  | zero =>
    norm_num at h
    simp [natToBe, beVal, h]
  | succ k ih =>
    have hpow : (2:Nat) ^ (8 * (k + 1)) = 256 * 2 ^ (8 * k) := by
      have h8 : (2:Nat) ^ 8 = 256 := by norm_num
      rw [Nat.mul_succ, pow_add, h8, Nat.mul_comm]
    rw [hpow] at h
    have hdiv : n / 256 < 2 ^ (8 * k) := by omega
    rw [natToBe, beVal_append, ih _ hdiv]
    omega

theorem readBytes_exact (xs rest : List Nat) :
    readBytes xs.length (xs ++ rest) = some (xs, rest) := by
  simp [readBytes, List.take_left, List.drop_left]

theorem readU32_u32be (n : Nat) (h : n < 2 ^ 32) (rest : List Nat) :
    readU32 (u32be n ++ rest) = some (n, rest) := by
  have hrb := readBytes_exact (natToBe 4 n) rest
  rw [natToBe_length] at hrb
  have hb : beVal (natToBe 4 n) = n := beVal_natToBe 4 n (by omega)
  simp [readU32, u32be, hrb, hb]

theorem readU16_u16be (n : Nat) (h : n < 2 ^ 16) (rest : List Nat) :
    readU16 (u16be n ++ rest) = some (n, rest) := by
  have hrb := readBytes_exact (natToBe 2 n) rest
  rw [natToBe_length] at hrb
  have hb : beVal (natToBe 2 n) = n := beVal_natToBe 2 n (by omega)
  simp [readU16, u16be, hrb, hb]

theorem intDec_intEnc (k : Nat) (hk : 1 ≤ k) (v : Int)
    (hlo : -(2 ^ (8 * k - 1) : Int) ≤ v) (hhi : v < 2 ^ (8 * k - 1))
    (rest : List Nat) :
    ∃ bs, intEnc k v = some bs ∧ intDec k (bs ++ rest) = some (v, rest) := by
  have e1 : (((2 ^ (8 * k - 1) : Nat)) : Int) = (2 : Int) ^ (8 * k - 1) := by push_cast; ring
  have e2 : (((2 ^ (8 * k) : Nat)) : Int) = (2 : Int) ^ (8 * k) := by push_cast; ring
  have e3 : (2 : Nat) ^ (8 * k) = 2 ^ (8 * k - 1) * 2 := by
    rw [← pow_succ]
    congr 1
    omega
  have hloN : -(((2 ^ (8 * k - 1) : Nat)) : Int) ≤ v := by rw [e1]; exact hlo
  have hhiN : v < (((2 ^ (8 * k - 1) : Nat)) : Int) := by rw [e1]; exact hhi
  by_cases h0 : 0 ≤ v
  · have henc : intEnc k v = some (natToBe k v.toNat) := by
      rw [intEnc, if_pos ⟨hlo, hhi⟩, if_pos h0]
    refine ⟨_, henc, ?_⟩
    have hrb := readBytes_exact (natToBe k v.toNat) rest
    rw [natToBe_length] at hrb
    have hvB : v.toNat < 2 ^ (8 * k) := by omega
    have hvA : v.toNat < 2 ^ (8 * k - 1) := by omega
    have hfin : ((v.toNat : Nat) : Int) = v := by omega
    simp [intDec, hrb, beVal_natToBe k _ hvB, hvA, hfin]
  · have henc : intEnc k v = some (natToBe k (v + 2 ^ (8 * k)).toNat) := by
      rw [intEnc, if_pos ⟨hlo, hhi⟩, if_neg h0]
    refine ⟨_, henc, ?_⟩
    have hrb := readBytes_exact (natToBe k (v + 2 ^ (8 * k)).toNat) rest
    rw [natToBe_length] at hrb
    have hvB : (v + 2 ^ (8 * k)).toNat < 2 ^ (8 * k) := by omega
    have hvA : ¬ ((v + 2 ^ (8 * k)).toNat < 2 ^ (8 * k - 1)) := by omega
    have hfin : (((v + 2 ^ (8 * k)).toNat : Nat) : Int) - (2 : Int) ^ (8 * k) = v := by omega
    simp only [intDec, hrb, beVal_natToBe k _ hvB, if_neg hvA]
    rw [hfin]

theorem uintDec_uintEnc (k n : Nat) (h : n < 2 ^ (8 * k)) (rest : List Nat) :
    ∃ bs, uintEnc k n = some bs ∧ uintDec k (bs ++ rest) = some (n, rest) := by
  refine ⟨_, by rw [uintEnc, if_pos h], ?_⟩
  have hrb := readBytes_exact (natToBe k n) rest
  rw [natToBe_length] at hrb
  simp [uintDec, hrb, beVal_natToBe k n h]

theorem boolDec_boolEnc (b : Bool) (rest : List Nat) :
    boolDec (boolEnc b ++ rest) = some (b, rest) := by
  cases b <;> simp [boolEnc, boolDec]

theorem strDec_strEnc (bs : List Nat) (h : bs.length < 2 ^ 32) (rest : List Nat) :
    ∃ out, strEnc bs = some out ∧ strDec (out ++ rest) = some (bs, rest) := by
  refine ⟨_, by rw [strEnc, if_pos h], ?_⟩
  rw [strDec, List.append_assoc, readU32_u32be bs.length h]
  exact readBytes_exact bs rest

/-!
Value model.  Python passes nested lists of scalars for N-dimensional array
values; LVVal/LVList is that nested-list universe (a mutual pair so all
recursion stays structural).  Signed integers carry an Int, unsigned
integers and float bit patterns a Nat, strings their encoded bytes.
-/

mutual
inductive LVVal where
  | int (v : Int)
  | nat (n : Nat)
  | bool (b : Bool)
  | str (bs : List Nat)
  | arr (xs : LVList)
inductive LVList where
  | nil
  | cons (x : LVVal) (xs : LVList)
end

def LVList.length : LVList → Nat
  | .nil => 0
  | .cons _ xs => xs.length + 1

def toLVList : List LVVal → LVList
  | [] => .nil
  | x :: xs => .cons x (toLVList xs)

/-- Python truthiness of a value, as used by the `if not obj` check in
ArrayAdapter._build. -/
def isFalsy : LVVal → Bool
  | .int v => v = 0
  | .nat n => n = 0
  | .bool b => !b
  | .str bs => bs.isEmpty
  | .arr .nil => true
  | .arr (.cons _ _) => false

/-- ArrayAdapter._get_dimensions: length along the first element of each
nesting level. -/
def getDims : LVVal → List Nat
  | .arr xs => xs.length :: (match xs with | .nil => [] | .cons x _ => getDims x)
  | _ => []

mutual
/-- ArrayAdapter._flatten_nested_list: row-major flattening of a nested
list value. -/
def flattenLV : LVVal → List LVVal
  | .arr xs => flattenL xs
  | v => [v]
def flattenL : LVList → List LVVal
  | .nil => []
  | .cons x xs => flattenLV x ++ flattenL xs
end

/-- ArrayAdapter._reshape_to_nested_list (src/src/compound_types.py lines
225-244) combined with the top-level 1-D dispatch: a flat element list is cut
into nested rows, sub-array size being the product of the remaining dims. -/
def reshape : List Nat → List LVVal → List LVVal
  | [], flat => flat
  | [d], flat => flat.take d
  | d :: ds, flat =>
    (List.range d).map (fun i => LVVal.arr (toLVList (reshape ds ((flat.drop (i * ds.prod)).take ds.prod))))

/-!
Scalar wire kinds and the two-level field-schema universe.  The source
ArrayAdapter is generic over an arbitrary element construct; arrayParse and
arrayBuild below keep that generality through their element-codec function
parameters, and FType instantiates them with scalar elements, the element
shapes the serializer type hints use.
-/

inductive SType where
  | i8 | i16 | i32 | i64 | u8 | u16 | u32 | u64 | f32 | f64 | boolean | str
deriving DecidableEq

inductive FType where
  | scalar (t : SType)
  | array (elem : SType)
deriving DecidableEq

/-- Construct sizeof of the element type: fixed widths for integers, floats
and boolean; SizeofError (none) for strings. -/
def sizeofS : SType → Option Nat
  | .i8 => some 1
  | .u8 => some 1
  | .boolean => some 1
  | .i16 => some 2
  | .u16 => some 2
  | .i32 => some 4
  | .u32 => some 4
  | .f32 => some 4
  | .i64 => some 8
  | .u64 => some 8
  | .f64 => some 8
  | .str => none

/-- Scalar build dispatch (LVI32.build and friends).  A value of the wrong
host shape raises in Python, hence none. -/
def senc : SType → LVVal → Option (List Nat)
  | .i8, .int v => intEnc 1 v
  | .i16, .int v => intEnc 2 v
  | .i32, .int v => intEnc 4 v
  | .i64, .int v => intEnc 8 v
  | .u8, .nat n => uintEnc 1 n
  | .u16, .nat n => uintEnc 2 n
  | .u32, .nat n => uintEnc 4 n
  | .u64, .nat n => uintEnc 8 n
  | .f32, .nat n => uintEnc 4 n
  | .f64, .nat n => uintEnc 8 n
  | .boolean, .bool b => some (boolEnc b)
  | .str, .str bs => strEnc bs
  | _, _ => none

/-- Scalar parse_stream dispatch. -/
def sdec : SType → List Nat → Option (LVVal × List Nat)
  | .i8, s => (intDec 1 s).map (fun p => (.int p.1, p.2))
  | .i16, s => (intDec 2 s).map (fun p => (.int p.1, p.2))
  | .i32, s => (intDec 4 s).map (fun p => (.int p.1, p.2))
  | .i64, s => (intDec 8 s).map (fun p => (.int p.1, p.2))
  | .u8, s => (uintDec 1 s).map (fun p => (.nat p.1, p.2))
  | .u16, s => (uintDec 2 s).map (fun p => (.nat p.1, p.2))
  | .u32, s => (uintDec 4 s).map (fun p => (.nat p.1, p.2))
  | .u64, s => (uintDec 8 s).map (fun p => (.nat p.1, p.2))
  | .f32, s => (uintDec 4 s).map (fun p => (.nat p.1, p.2))
  | .f64, s => (uintDec 8 s).map (fun p => (.nat p.1, p.2))
  | .boolean, s => (boolDec s).map (fun p => (.bool p.1, p.2))
  | .str, s => (strDec s).map (fun p => (.str p.1, p.2))

/-- Dimension-search loop of ArrayAdapter._parse (src/src/compound_types.py
lines 126-157).  R is the byte count remaining at the array's start, dims the
candidates read so far, s the stream after those dims; fuel is
MAX_DIMENSIONS minus the number of candidates, so the loop body never runs
with ten candidates.  Returns the dims and stream position of the first
exact byte-count match, none when the search falls back to 1-D. -/
def dimLoop (esz R : Nat) : Nat → List Nat → List Nat → Option (List Nat × List Nat)
  | 0, _, _ => none
  | fuel + 1, dims, s =>
    if 4 * dims.length + dims.prod * esz = R then some (dims, s)
    else if R < 4 * dims.length + dims.prod * esz then none
    else if R < 4 * dims.length + 4 then none
    else
      match readU32 s with
      | none => none
      | some (d, s2) => if d = 0 then none else dimLoop esz R fuel (dims ++ [d]) s2

/-- Sequential element parsing (the parse loops of ArrayAdapter._parse). -/
def parseElems (pe : List Nat → Option (LVVal × List Nat)) : Nat → List Nat → Option (List LVVal × List Nat)
  | 0, s => some ([], s)
  | n + 1, s =>
    match pe s with
    | none => none
    | some (v, s2) =>
      match parseElems pe n s2 with
      | none => none
      | some (vs, s3) => some (v :: vs, s3)

/-- ArrayAdapter._parse (src/src/compound_types.py lines 81-176): generic in
the element codec.  esize is the element sizeof (none for variable-size
elements, which fall back to plain 1-D parsing); pe parses one element. -/
def arrayParse (esize : Option Nat) (pe : List Nat → Option (LVVal × List Nat))
    (input : List Nat) : Option (LVVal × List Nat) :=
  match esize with
  | none =>
    match readU32 input with
    | none => none
    | some (count, rest) =>
      if count = 0 then some (.arr .nil, rest)
      else
        match parseElems pe count rest with
        | none => none
        | some (vs, r) => some (.arr (toLVList vs), r)
  | some esz =>
    if input.length < 4 then some (.arr .nil, input)
    else
      match readU32 input with
      | none => none
      | some (v0, rest) =>
        if v0 = 0 then some (.arr .nil, rest)
        else
          match dimLoop esz input.length 9 [v0] rest with
          | some (dims, rest2) =>
            match parseElems pe dims.prod rest2 with
            | none => none
            | some (vs, r) => some (.arr (toLVList (reshape dims vs)), r)
          | none =>
            match parseElems pe v0 rest with
            | none => none
            | some (vs, r) => some (.arr (toLVList vs), r)

/-- Sequential element building (the element write loop of
ArrayAdapter._build). -/
def buildElems (be : LVVal → Option (List Nat)) : List LVVal → Option (List Nat)
  | [] => some []
  | v :: vs =>
    match be v with
    | none => none
    | some b => (buildElems be vs).map (fun r => b ++ r)

/-- ArrayAdapter._build (src/src/compound_types.py lines 178-195): writes
every dimension size as u32, then the flattened elements. -/
def arrayBuild (be : LVVal → Option (List Nat)) (v : LVVal) : Option (List Nat) :=
  if isFalsy v then some (u32be 0)
  else
    let dims := getDims v
    if dims.all (fun d => d < 2 ^ 32) then
      match buildElems be (flattenLV v) with
      | none => none
      | some eb => some (dims.flatMap u32be ++ eb)
    else none

/-- Field encode: scalar dispatch or LVArray build. -/
def fenc : FType → LVVal → Option (List Nat)
  | .scalar t, v => senc t v
  | .array e, v => arrayBuild (senc e) v

/-- Field decode: scalar dispatch or ArrayAdapter parse. -/
def fdec : FType → List Nat → Option (LVVal × List Nat)
  | .scalar t, s => sdec t s
  | .array e, s => arrayParse (sizeofS e) (sdec e) s

/-- ClusterAdapter build (src/src/compound_types.py lines 345-405): the
underlying Struct concatenates the per-field builds in declared order, with
no header and no padding. -/
def clusterEnc : List FType → List LVVal → Option (List Nat)
  | [], [] => some []
  | f :: fs, v :: vs =>
    match fenc f v with
    | none => none
    | some b => (clusterEnc fs vs).map (fun r => b ++ r)
  | _, _ => none

/-- ClusterAdapter parse: sequential per-field parse_stream in declared
order, results tupled. -/
def clusterDec : List FType → List Nat → Option (List LVVal × List Nat)
  | [], s => some ([], s)
  | f :: fs, s =>
    match fdec f s with
    | none => none
    | some (v, s2) =>
      match clusterDec fs s2 with
      | none => none
      | some (vs, s3) => some (v :: vs, s3)

/-!
LVObject embedding (src/src/objects.py).  Class names travel as byte lists;
the registry (src/af_serializer/decorators.py) maps the fully-qualified
wire name of the most-derived class to its inheritance chain, root ancestor
first, each level carrying its version and its own ordered field type
hints.
-/

structure LevelDesc where
  library : List Nat
  className : List Nat
  major : Nat
  minor : Nat
  patch : Nat
  build : Nat
  hints : List (List Nat × FType)

structure ObjDict where
  numLevels : Nat
  className : List Nat
  versions : List (Nat × Nat × Nat × Nat)
  clusterData : List (List Nat)

/-- Padding bytes to the next 4-byte boundary (_calculate_padding). -/
def pad4 (n : Nat) : Nat := (4 - n % 4) % 4

/-- Splits a class-name byte string at its first colon, as the
split-on-colon in LVObjectAdapter._encode does; none when no colon. -/
def splitColon : List Nat → Option (List Nat × List Nat)
  | [] => none
  | b :: bs =>
    if b = 58 then some ([], bs)
    else (splitColon bs).map (fun p => (b :: p.1, p.2))

/-- ClassName section bytes built by LVObjectAdapter._encode lines 374-402:
u8 total length over the Pascal strings plus terminator, the Pascal strings
(library omitted entirely when empty), a zero terminator, zero padding to a
multiple of 4 counted from the section start.  none when the total length
overflows the u8 (Int8ub.build raises). -/
def classNameSection (lib cls : List Nat) : Option (List Nat) :=
  if (if lib = [] then 0 else 1 + lib.length) + (1 + cls.length) + 1 ≤ 255 then
    some ((((if lib = [] then 0 else 1 + lib.length) + (1 + cls.length) + 1)
        :: ((if lib = [] then [] else lib.length :: lib) ++ (cls.length :: cls) ++ [0]))
      ++ List.replicate (pad4 (1 + ((if lib = [] then 0 else 1 + lib.length) + (1 + cls.length) + 1))) 0)
  else none

/-- VersionList bytes: per level four big-endian u16 values, in list order
(LVObjectAdapter._encode lines 414-419); VersionStruct.build raises on a
component that does not fit a u16. -/
def versionsBytes : List (Nat × Nat × Nat × Nat) → Option (List Nat)
  | [] => some []
  | (a, b, c, d) :: vs =>
    if a < 2 ^ 16 ∧ b < 2 ^ 16 ∧ c < 2 ^ 16 ∧ d < 2 ^ 16 then
      (versionsBytes vs).map (fun r => u16be a ++ u16be b ++ u16be c ++ u16be d ++ r)
    else none

/-- ClusterData section (LVObjectAdapter._encode lines 404-426): omitted
entirely when every level's bytes are empty, otherwise one u32 length plus
bytes pair per level, zero-length levels included. -/
def clusterPairs : List (List Nat) → Option (List Nat)
  | [] => some []
  | c :: cs =>
    if c.length < 2 ^ 32 then (clusterPairs cs).map (fun r => u32be c.length ++ c ++ r)
    else none

def clusterSection (cds : List (List Nat)) : Option (List Nat) :=
  if cds.all (fun c => c.isEmpty) then some []
  else clusterPairs cds

/-- Library and class-name parts of a full name, as the split-on-colon at
LVObjectAdapter._encode lines 366-372 assigns them: before and after the
first colon, or an empty library when there is none. -/
def classNameParts (bs : List Nat) : List Nat × List Nat :=
  match splitColon bs with
  | some p => p
  | none => ([], bs)

/-- LVObjectAdapter._encode (src/src/objects.py lines 340-428) on the
dictionary form: NumLevels, then for a non-empty chain the ClassName
section, the VersionList and the possibly omitted ClusterData. -/
def objectEncode (d : ObjDict) : Option (List Nat) :=
  if d.numLevels < 2 ^ 32 then
    if d.numLevels = 0 then some (u32be 0)
    else
      let lc := classNameParts d.className
      match classNameSection lc.1 lc.2 with
      | none => none
      | some sec =>
        match versionsBytes d.versions with
        | none => none
        | some vb =>
          match clusterSection d.clusterData with
          | none => none
          | some cb => some (u32be d.numLevels ++ sec ++ vb ++ cb)
  else none

/-- Pascal-string reading loop of LVObjectAdapter._decode lines 219-229:
reads a u8 length, stops at a zero length, otherwise takes that many bytes
(a short read silently yields fewer, as BytesIO.read does) and repeats.
Returns the strings, the byte count of the loop (requested lengths, as the
Python counter adds str_length), and the remaining stream.  fuel bounds the
iteration count; each iteration consumes at least one byte, so fuel equal
to the stream length is never the limiting factor. -/
def readPStrings (fuel : Nat) (s : List Nat) : Option (List (List Nat) × Nat × List Nat) :=
  match s with
  | [] => none
  | L :: rest =>
    if L = 0 then some ([], 1, rest)
    else
      match fuel with
      | 0 => none
      | f + 1 =>
        match readPStrings f (rest.drop L) with
        | none => none
        | some (strs, n, r) => some (rest.take L :: strs, 1 + L + n, r)

/-- ClassName section parsing, LVObjectAdapter._decode lines 211-255: a u8
total length (read but unused), the Pascal strings up to the zero
terminator, the library and class name recovered from the string count,
then padding skipped based on the bytes read. -/
def parseClassName (s : List Nat) : Option (List Nat × List Nat × List Nat) :=
  match s with
  | [] => none
  | _totalLen :: s1 =>
    match readPStrings s1.length s1 with
    | none => none
    | some (strs, nsec, s2) =>
      let lc : List Nat × List Nat :=
        match strs with
        | [] => ([], [])
        | [c] => ([], c)
        | l :: c :: _ => (l, c)
      some (lc.1, lc.2, s2.drop (pad4 (1 + nsec)))

/-- VersionList reading (LVObjectAdapter._decode lines 258-263): per level
four big-endian u16 values; a truncated stream raises. -/
def readVersions : Nat → List Nat → Option (List (Nat × Nat × Nat × Nat) × List Nat)
  | 0, s => some ([], s)
  | n + 1, s =>
    match readU16 s with
    | none => none
    | some (a, s1) =>
      match readU16 s1 with
      | none => none
      | some (b, s2) =>
        match readU16 s2 with
        | none => none
        | some (c, s3) =>
          match readU16 s3 with
          | none => none
          | some (d, s4) =>
            match readVersions n s4 with
            | none => none
            | some (vs, s5) => some ((a, b, c, d) :: vs, s5)

/-- ClusterData reading (LVObjectAdapter._decode lines 266-276): per level a
u32 size read inside try/except, a failed size read yielding an empty level,
then size bytes (short reads yield the truncated bytes). -/
def readClusters : Nat → List Nat → List (List Nat) × List Nat
  | 0, s => ([], s)
  | n + 1, s =>
    match readU32 s with
    | none =>
      let p := readClusters n s
      ([] :: p.1, p.2)
    | some (size, s1) =>
      if size > 0 then
        let p := readClusters n (s1.drop size)
        (s1.take size :: p.1, p.2)
      else
        let p := readClusters n s1
        ([] :: p.1, p.2)

/-- Registry lookup (get_lvclass_by_name in src/af_serializer/decorators.py):
an association list from full wire names to inheritance chains. -/
def lookupReg (reg : List (List Nat × List LevelDesc)) (name : List Nat) : Option (List LevelDesc) :=
  match reg with
  | [] => none
  | (k, v) :: r => if k = name then some v else lookupReg r name

/-- Sequential field decoding inside deserialize_type_hints
(src/src/objects.py lines 116-138): each hint parsed in order; the first
failure warns and breaks, returning the fields decoded so far and a flag
that the diagnostic fired. -/
def decFieldsPartial : List (List Nat × FType) → List Nat → List (List Nat × LVVal) × Bool
  | [], _ => ([], false)
  | (n, t) :: hs, s =>
    match fdec t s with
    | none => ([], true)
    | some (v, s2) =>
      let p := decFieldsPartial hs s2
      ((n, v) :: p.1, p.2)

/-- deserialize_type_hints (src/src/objects.py lines 89-140): empty hints or
empty bytes give no fields and no diagnostic. -/
def deserializeTypeHints (hints : List (List Nat × FType)) (cb : List Nat) :
    List (List Nat × LVVal) × Bool :=
  if hints = [] ∨ cb = [] then ([], false)
  else decFieldsPartial hints cb

/-- Per-level population loop of LVObjectAdapter._decode lines 310-327:
levels paired with their cluster bytes (stopping when either runs out), the
decoded fields assigned in order, the indices of levels whose field
decoding produced a diagnostic collected. -/
def populateLevels (idx : Nat) : List LevelDesc → List (List Nat) → List (List Nat × LVVal) × List Nat
  | [], _ => ([], [])
  | _, [] => ([], [])
  | l :: ls, cb :: cbs =>
    let q := deserializeTypeHints l.hints cb
    let p := populateLevels (idx + 1) ls cbs
    (q.1 ++ p.1, (if q.2 then [idx] else []) ++ p.2)

/-- Decode results: the empty-object sentinel dictionary, the structural
dictionary returned with a warning when the class is not registered, or a
populated instance with the per-level diagnostic indices. -/
inductive DecResult where
  | empty
  | unresolved (d : ObjDict)
  | inst (fields : List (List Nat × LVVal)) (failedLevels : List Nat)

/-- LVObjectAdapter._decode (src/src/objects.py lines 183-338). -/
def objectDecode (reg : List (List Nat × List LevelDesc)) (s : List Nat) : Option DecResult :=
  match readU32 s with
  | none => none
  | some (numLevels, s1) =>
    if numLevels = 0 then some .empty
    else
      match parseClassName s1 with
      | none => none
      | some (lib, cls, s2) =>
        let fullName := if lib = [] then cls else lib ++ 58 :: cls
        match readVersions numLevels s2 with
        | none => none
        | some (vers, s3) =>
          let cds := (readClusters numLevels s3).1
          match lookupReg reg fullName with
          | none => some (.unresolved ⟨numLevels, fullName, vers, cds⟩)
          | some chain =>
            let p := populateLevels 0 chain cds
            some (.inst p.1 p.2)

/-- Suffix bytes of ".lvlib". -/
def lvlibSuffix : List Nat := [46, 108, 118, 108, 105, 98]

/-- Suffix bytes of ".lvclass". -/
def lvclassSuffix : List Nat := [46, 108, 118, 99, 108, 97, 115, 115]

/-- Full wire name of a descriptor, as both the registry key
(src/af_serializer/decorators.py line 102) and
_instance_to_lvobject_dict line 472 format it. -/
def fullClassName (l : LevelDesc) : List Nat :=
  if l.library = [] then l.className ++ lvclassSuffix
  else l.library ++ lvlibSuffix ++ 58 :: (l.className ++ lvclassSuffix)

/-- Association lookup of an instance attribute value. -/
def lookupV (n : List Nat) : List (List Nat × LVVal) → Option LVVal
  | [] => none
  | (m, v) :: r => if m = n then some v else lookupV n r

/-- Type-specific zero default used by serialize_type_hints lines 569-594
for a declared field with no value. -/
def defaultVal : FType → LVVal
  | .scalar .str => .str []
  | .scalar .boolean => .bool false
  | .scalar .i8 => .int 0
  | .scalar .i16 => .int 0
  | .scalar .i32 => .int 0
  | .scalar .i64 => .int 0
  | .scalar .u8 => .nat 0
  | .scalar .u16 => .nat 0
  | .scalar .u32 => .nat 0
  | .scalar .u64 => .nat 0
  | .scalar .f32 => .nat 0
  | .scalar .f64 => .nat 0
  | .array _ => .arr .nil

/-- Field serialization loop of serialize_type_hints lines 564-606: every
hint encoded in order, the declared value when present and the
type-specific default otherwise. -/
def serializeFields (vals : List (List Nat × LVVal)) : List (List Nat × FType) → Option (List Nat)
  | [] => some []
  | (n, t) :: hs =>
    match fenc t (match lookupV n vals with | some v => v | none => defaultVal t) with
    | none => none
    | some b => (serializeFields vals hs).map (fun r => b ++ r)

/-- serialize_type_hints (src/src/objects.py lines 530-608): empty hints or
no declared value at all give an empty cluster; otherwise every hint is
serialized with value or default. -/
def serializeTypeHints (hints : List (List Nat × FType)) (vals : List (List Nat × LVVal)) :
    Option (List Nat) :=
  if hints = [] then some []
  else if hints.all (fun p => (lookupV p.1 vals).isNone) then some []
  else serializeFields vals hints

/-- Level-bytes list built by _instance_to_lvobject_dict lines 459-468. -/
def levelBytesList (vals : List (List Nat × LVVal)) : List LevelDesc → Option (List (List Nat))
  | [] => some []
  | l :: ls =>
    match serializeTypeHints l.hints vals with
    | none => none
    | some b => (levelBytesList vals ls).map (fun r => b :: r)

/-- Last element of a chain (inheritance_chain[-1]). -/
def lastLevel : List LevelDesc → Option LevelDesc
  | [] => none
  | [l] => some l
  | _ :: ls => lastLevel ls

/-- _instance_to_lvobject_dict (src/src/objects.py lines 431-479): chain
walked root first, versions collected per level and then reversed by the
append-then-reverse step at lines 453-456, cluster bytes per level, class
name from the most-derived descriptor only. -/
def instanceToDict (chain : List LevelDesc) (vals : List (List Nat × LVVal)) : Option ObjDict :=
  match lastLevel chain with
  | none => none
  | some most =>
    match levelBytesList vals chain with
    | none => none
    | some cds =>
      some ⟨chain.length, fullClassName most,
        ((chain.map (fun l => (l.major, l.minor, l.patch, l.build))).reverse), cds⟩

/-!
Specification-side formulations of the dimension search, kept separate from
the code embedding so the two can be compared.
-/

/-- Dimension search as the specification sentence words it: for k up to a
cap of ten dimensions, accumulate candidates, reading one more u32 per
step, and accept the first k whose dims-plus-elements byte count equals the
remainder.  Written for comparison against dimLoop. -/
def specDims (esz R : Nat) : Nat → List Nat → List Nat → Option (List Nat × List Nat)
  | 0, _, _ => none
  | fuel + 1, dims, s =>
    if 4 * dims.length + dims.prod * esz = R then some (dims, s)
    else
      match readU32 s with
      | none => none
      | some (d, s2) => specDims esz R fuel (dims ++ [d]) s2

/-- Array decode as the specification sentence describes it for fixed-size
elements: specDims with cap ten in place of the code's search loop,
everything else as in arrayParse. -/
def specArrayParse (esz : Nat) (pe : List Nat → Option (LVVal × List Nat))
    (input : List Nat) : Option (LVVal × List Nat) :=
  if input.length < 4 then some (.arr .nil, input)
  else
    match readU32 input with
    | none => none
    | some (v0, rest) =>
      if v0 = 0 then some (.arr .nil, rest)
      else
        match specDims esz input.length 10 [v0] rest with
        | some (dims, rest2) =>
          match parseElems pe dims.prod rest2 with
          | none => none
          | some (vs, r) => some (.arr (toLVList (reshape dims vs)), r)
        | none =>
          match parseElems pe v0 rest with
          | none => none
          | some (vs, r) => some (.arr (toLVList vs), r)

/-- Candidate dimension lists the code's search actually visits: growth
stops when the candidate byte count reaches the remainder, when fewer than
four bytes remain for another u32, or when a zero dimension is read. -/
def candList (esz R : Nat) : Nat → List Nat → List Nat → List (List Nat × List Nat)
  | 0, _, _ => []
  | fuel + 1, dims, s =>
    (dims, s) ::
      (if R ≤ 4 * dims.length + dims.prod * esz then []
       else if R < 4 * dims.length + 4 then []
       else
         match readU32 s with
         | none => []
         | some (d, s2) => if d = 0 then [] else candList esz R fuel (dims ++ [d]) s2)

/-- First-match formulation of the search over the visited candidates. -/
def amendedArrayParse (esz : Nat) (pe : List Nat → Option (LVVal × List Nat))
    (input : List Nat) : Option (LVVal × List Nat) :=
  if input.length < 4 then some (.arr .nil, input)
  else
    match readU32 input with
    | none => none
    | some (v0, rest) =>
      if v0 = 0 then some (.arr .nil, rest)
      else
        match (candList esz input.length 9 [v0] rest).find?
            (fun c => 4 * c.1.length + c.1.prod * esz == input.length) with
        | some (dims, rest2) =>
          match parseElems pe dims.prod rest2 with
          | none => none
          | some (vs, r) => some (.arr (toLVList (reshape dims vs)), r)
        | none =>
          match parseElems pe v0 rest with
          | none => none
          | some (vs, r) => some (.arr (toLVList vs), r)

theorem dimLoop_eq_find (esz R : Nat) : ∀ (fuel : Nat) (dims : List Nat) (s : List Nat),
    dimLoop esz R fuel dims s =
      (candList esz R fuel dims s).find? (fun c => 4 * c.1.length + c.1.prod * esz == R) := by
  intro fuel
  induction fuel with
  | zero => intro dims s; simp [dimLoop, candList]
  | succ fuel ih =>
    intro dims s
    rw [dimLoop, candList]
    by_cases h1 : 4 * dims.length + dims.prod * esz = R
    · rw [if_pos h1, List.find?_cons]
      simp [h1]
    · rw [if_neg h1, List.find?_cons]
      have hpred : (4 * dims.length + dims.prod * esz == R) = false := by
        simp [h1]
      rw [hpred]
      by_cases h2 : R < 4 * dims.length + dims.prod * esz
      · rw [if_pos h2, if_pos (by omega : R ≤ 4 * dims.length + dims.prod * esz)]
        simp
      · rw [if_neg h2, if_neg (by omega : ¬ R ≤ 4 * dims.length + dims.prod * esz)]
        by_cases h3 : R < 4 * dims.length + 4
        · rw [if_pos h3, if_pos h3]
          simp
        · rw [if_neg h3, if_neg h3]
          match hread : readU32 s with
          | none => simp
          | some (d, s2) =>
            by_cases h4 : d = 0
            · simp [h4]
            · simp [h4, ih]

/-- Helper: a successful signed encode decodes back in front of any
remainder. -/
theorem intDec_of_enc (k : Nat) (hk : 1 ≤ k) (v : Int) (bs rest : List Nat)
    (h : intEnc k v = some bs) : intDec k (bs ++ rest) = some (v, rest) := by
  have hrange : -(2 ^ (8 * k - 1) : Int) ≤ v ∧ v < 2 ^ (8 * k - 1) := by
    by_contra hc
    rw [intEnc, if_neg hc] at h
    exact Option.noConfusion h
  obtain ⟨bs2, h2, h3⟩ := intDec_intEnc k hk v hrange.1 hrange.2 rest
  rw [h] at h2
  cases h2
  exact h3

/-- Helper: a successful unsigned encode decodes back in front of any
remainder. -/
theorem uintDec_of_enc (k : Nat) (n : Nat) (bs rest : List Nat)
    (h : uintEnc k n = some bs) : uintDec k (bs ++ rest) = some (n, rest) := by
  have hrange : n < 2 ^ (8 * k) := by
    by_contra hc
    rw [uintEnc, if_neg hc] at h
    exact Option.noConfusion h
  obtain ⟨bs2, h2, h3⟩ := uintDec_uintEnc k n hrange rest
  rw [h] at h2
  cases h2
  exact h3

/-- Helper: a successful string encode decodes back in front of any
remainder. -/
theorem strDec_of_enc (bs out rest : List Nat)
    (h : strEnc bs = some out) : strDec (out ++ rest) = some (bs, rest) := by
  have hrange : bs.length < 2 ^ 32 := by
    by_contra hc
    rw [strEnc, if_neg hc] at h
    exact Option.noConfusion h
  obtain ⟨out2, h2, h3⟩ := strDec_strEnc bs hrange rest
  rw [h] at h2
  cases h2
  exact h3

/-- Every successful scalar encode is prefix-stable: decoding it in front of
any remainder returns the value and the remainder. -/
theorem sdec_senc (t : SType) (v : LVVal) (bs rest : List Nat)
    (h : senc t v = some bs) : sdec t (bs ++ rest) = some (v, rest) := by
  cases t <;> cases v <;> simp only [senc] at h <;>
    try exact Option.noConfusion h
  case i8.int w => simp [sdec, intDec_of_enc 1 (by norm_num) w bs rest h]
  case i16.int w => simp [sdec, intDec_of_enc 2 (by norm_num) w bs rest h]
  case i32.int w => simp [sdec, intDec_of_enc 4 (by norm_num) w bs rest h]
  case i64.int w => simp [sdec, intDec_of_enc 8 (by norm_num) w bs rest h]
  case u8.nat n => simp [sdec, uintDec_of_enc 1 n bs rest h]
  case u16.nat n => simp [sdec, uintDec_of_enc 2 n bs rest h]
  case u32.nat n => simp [sdec, uintDec_of_enc 4 n bs rest h]
  case u64.nat n => simp [sdec, uintDec_of_enc 8 n bs rest h]
  case f32.nat n => simp [sdec, uintDec_of_enc 4 n bs rest h]
  case f64.nat n => simp [sdec, uintDec_of_enc 8 n bs rest h]
  case boolean.bool b =>
    cases h
    simp [sdec, boolDec_boolEnc]
  case str.str s2 => simp [sdec, strDec_of_enc s2 bs rest h]

/-!
Mirror lemmas: each encoder section parses back in front of any remainder.
-/

theorem readP_one (cls r : List Nat) (hc : cls ≠ []) (fuel : Nat) (hf : 1 ≤ fuel) :
    readPStrings fuel (cls.length :: (cls ++ 0 :: r)) = some ([cls], 1 + cls.length + 1, r) := by
  obtain ⟨f, rfl⟩ : ∃ f, fuel = f + 1 := ⟨fuel - 1, by omega⟩
  have hne : cls.length ≠ 0 := by simpa using hc
  rw [readPStrings.eq_def]
  simp only [if_neg hne, List.take_left, List.drop_left]
  rw [readPStrings.eq_def]
  simp

theorem readP_two (lib cls r : List Nat) (hl : lib ≠ []) (hc : cls ≠ [])
    (fuel : Nat) (hf : 2 ≤ fuel) :
    readPStrings fuel (lib.length :: (lib ++ cls.length :: (cls ++ 0 :: r)))
      = some ([lib, cls], 1 + lib.length + (1 + cls.length + 1), r) := by
  obtain ⟨f, rfl⟩ : ∃ f, fuel = f + 1 := ⟨fuel - 1, by omega⟩
  have hne : lib.length ≠ 0 := by simpa using hl
  rw [readPStrings.eq_def]
  simp only [if_neg hne, List.take_left, List.drop_left]
  rw [readP_one cls r hc f (by omega)]

theorem parseCN_nolib (t : Nat) (cls rest : List Nat) (hc : cls ≠ []) :
    parseClassName (t :: cls.length ::
        (cls ++ 0 :: (List.replicate (pad4 (1 + (1 + cls.length + 1))) 0 ++ rest)))
      = some ([], cls, rest) := by
  rw [parseClassName.eq_def]
  have h1 := readP_one cls (List.replicate (pad4 (1 + (1 + cls.length + 1))) 0 ++ rest) hc
    (cls.length :: (cls ++ 0 :: (List.replicate (pad4 (1 + (1 + cls.length + 1))) 0 ++ rest))).length
    (by simp)
  simp only [h1]
  have h2 : (List.replicate (pad4 (1 + (1 + cls.length + 1))) 0 ++ rest).drop
      (pad4 (1 + (1 + cls.length + 1))) = rest := by
    have := List.drop_left (List.replicate (pad4 (1 + (1 + cls.length + 1))) 0) rest
    rwa [List.length_replicate] at this
  simp [h2]

theorem parseCN_lib (t : Nat) (lib cls rest : List Nat) (hl : lib ≠ []) (hc : cls ≠ []) :
    parseClassName (t :: lib.length ::
        (lib ++ cls.length ::
          (cls ++ 0 :: (List.replicate (pad4 (1 + (1 + lib.length + (1 + cls.length + 1)))) 0 ++ rest))))
      = some (lib, cls, rest) := by
  rw [parseClassName.eq_def]
  have h1 := readP_two lib cls
    (List.replicate (pad4 (1 + (1 + lib.length + (1 + cls.length + 1)))) 0 ++ rest) hl hc
    (lib.length :: (lib ++ cls.length ::
      (cls ++ 0 :: (List.replicate (pad4 (1 + (1 + lib.length + (1 + cls.length + 1)))) 0 ++ rest)))).length
    (by simp; omega)
  simp only [h1]
  have h2 : (List.replicate (pad4 (1 + (1 + lib.length + (1 + cls.length + 1)))) 0 ++ rest).drop
      (pad4 (1 + (1 + lib.length + (1 + cls.length + 1)))) = rest := by
    have := List.drop_left
      (List.replicate (pad4 (1 + (1 + lib.length + (1 + cls.length + 1)))) 0) rest
    rwa [List.length_replicate] at this
  simp [h2]

theorem parseClassName_section (lib cls rest : List Nat) (hc : cls ≠ [])
    (hfit : (if lib = [] then 0 else 1 + lib.length) + (1 + cls.length) + 1 ≤ 255) :
    ∃ sec, classNameSection lib cls = some sec ∧
      parseClassName (sec ++ rest) = some (lib, cls, rest) := by
  by_cases hl : lib = []
  · subst hl
    have hsec : classNameSection [] cls
        = some (((1 + cls.length + 1)
            :: ((cls.length :: cls) ++ [0]))
          ++ List.replicate (pad4 (1 + (1 + cls.length + 1))) 0) := by
      rw [classNameSection, if_pos hfit]
      simp
    refine ⟨_, hsec, ?_⟩
    have := parseCN_nolib (1 + cls.length + 1) cls rest hc
    simpa [List.append_assoc] using this
  · have hsec : classNameSection lib cls
        = some (((1 + lib.length + (1 + cls.length) + 1)
            :: ((lib.length :: lib) ++ (cls.length :: cls) ++ [0]))
          ++ List.replicate (pad4 (1 + (1 + lib.length + (1 + cls.length) + 1))) 0) := by
      rw [classNameSection, if_pos hfit]
      simp [hl]
    refine ⟨_, hsec, ?_⟩
    have := parseCN_lib (1 + lib.length + (1 + cls.length) + 1) lib cls rest hl hc
    have harith : 1 + (1 + lib.length + (1 + cls.length + 1))
        = 1 + (1 + lib.length + (1 + cls.length) + 1) := by omega
    rw [harith] at this
    simpa [List.append_assoc] using this

theorem splitColon_orig : ∀ (bs l c : List Nat), splitColon bs = some (l, c) → bs = l ++ 58 :: c := by
  intro bs
  induction bs with
  | nil => intro l c h; exact Option.noConfusion h
  | cons b bs ih =>
    intro l c h
    rw [splitColon] at h
    by_cases hb : b = 58
    · rw [if_pos hb] at h
      cases h
      simpa using hb
    · rw [if_neg hb] at h
      match hsp : splitColon bs with
      | none => rw [hsp] at h; exact Option.noConfusion h
      | some p =>
        rw [hsp] at h
        simp only [Option.map_some'] at h
        cases h
        have := ih p.1 p.2 (by rw [hsp])
        simp [this]

/-- The full name the decoder rebuilds equals the name the encoder split,
when the name does not start with a colon. -/
theorem classNameParts_join (bs : List Nat)
    (h2 : (classNameParts bs).1 = [] → splitColon bs = none) :
    (if (classNameParts bs).1 = [] then (classNameParts bs).2
      else (classNameParts bs).1 ++ 58 :: (classNameParts bs).2) = bs := by
  match hsp : splitColon bs with
  | none => simp [classNameParts, hsp]
  | some p =>
    have hb := splitColon_orig bs p.1 p.2 (by rw [hsp])
    by_cases hnil : p.1 = []
    · exfalso
      have := h2 (by simp [classNameParts, hsp, hnil])
      rw [hsp] at this
      exact Option.noConfusion this
    · simp [classNameParts, hsp, hnil, ← hb]

theorem readVersions_bytes : ∀ (vs : List (Nat × Nat × Nat × Nat)) (vb rest : List Nat),
    versionsBytes vs = some vb → readVersions vs.length (vb ++ rest) = some (vs, rest) := by
  intro vs
  induction vs with
  | nil =>
    intro vb rest h
    rw [versionsBytes] at h
    cases h
    simp [readVersions]
  | cons v vs ih =>
    intro vb rest h
    obtain ⟨a, b, c, d⟩ := v
    rw [versionsBytes] at h
    by_cases hb : a < 2 ^ 16 ∧ b < 2 ^ 16 ∧ c < 2 ^ 16 ∧ d < 2 ^ 16
    · rw [if_pos hb] at h
      match hv : versionsBytes vs with
      | none => rw [hv] at h; exact Option.noConfusion h
      | some r =>
        rw [hv] at h
        simp only [Option.map_some'] at h
        cases h
        rw [List.length_cons, readVersions]
        simp only [List.append_assoc, readU16_u16be a hb.1, readU16_u16be b hb.2.1,
          readU16_u16be c hb.2.2.1, readU16_u16be d hb.2.2.2, ih r rest hv]
    · rw [if_neg hb] at h
      exact Option.noConfusion h

theorem readBytes_none (n : Nat) (s : List Nat) (h : s.length < n) : readBytes n s = none := by
  rw [readBytes, if_neg (by omega)]

theorem readClusters_short : ∀ (n : Nat) (s : List Nat), s.length < 4 →
    readClusters n s = (List.replicate n [], s) := by
  intro n
  induction n with
  | zero => intro s h; simp [readClusters]
  | succ n ih =>
    intro s h
    rw [readClusters]
    have hr : readU32 s = none := by
      rw [readU32, readBytes_none 4 s h]
      rfl
    rw [hr, ih s h]
    simp [List.replicate_succ]

theorem readClusters_pairs : ∀ (cds : List (List Nat)) (pb rest : List Nat),
    clusterPairs cds = some pb → readClusters cds.length (pb ++ rest) = (cds, rest) := by
  intro cds
  induction cds with
  | nil =>
    intro pb rest h
    rw [clusterPairs] at h
    cases h
    simp [readClusters]
  | cons c cs ih =>
    intro pb rest h
    rw [clusterPairs] at h
    by_cases hc : c.length < 2 ^ 32
    · rw [if_pos hc] at h
      match hp : clusterPairs cs with
      | none => rw [hp] at h; exact Option.noConfusion h
      | some r =>
        rw [hp] at h
        simp only [Option.map_some'] at h
        cases h
        rw [List.length_cons, readClusters]
        simp only [List.append_assoc]
        rw [readU32_u32be c.length hc]
        by_cases hz : c.length > 0
        · simp only [if_pos hz, List.take_left, List.drop_left, ih r rest hp]
        · have hce : c = [] := by
            cases c with
            | nil => rfl
            | cons x xs => simp at hz
          subst hce
          simp [ih r rest hp]
    · rw [if_neg hc] at h
      exact Option.noConfusion h

theorem all_empty_replicate : ∀ (l : List (List Nat)), l.all (fun c => c.isEmpty) = true →
    l = List.replicate l.length [] := by
  intro l
  induction l with
  | nil => intro _; rfl
  | cons c cs ih =>
    intro h
    simp only [List.all_cons, Bool.and_eq_true] at h
    have hc : c = [] := by
      cases c with
      | nil => rfl
      | cons x xs => simp [List.isEmpty] at h
    rw [List.length_cons, List.replicate_succ, ← ih h.2, hc]

theorem versionsBytes_exists : ∀ (vs : List (Nat × Nat × Nat × Nat)),
    (∀ ver ∈ vs, ver.1 < 2 ^ 16 ∧ ver.2.1 < 2 ^ 16 ∧ ver.2.2.1 < 2 ^ 16 ∧ ver.2.2.2 < 2 ^ 16) →
    ∃ vb, versionsBytes vs = some vb := by
  intro vs
  induction vs with
  | nil => intro _; exact ⟨[], rfl⟩
  | cons v vs ih =>
    intro h
    obtain ⟨a, b, c, d⟩ := v
    obtain ⟨vb, hvb⟩ := ih (fun ver hm => h ver (List.mem_cons_of_mem _ hm))
    have hv := h (a, b, c, d) (List.mem_cons_self _ _)
    rw [versionsBytes, if_pos hv, hvb]
    exact ⟨_, rfl⟩

theorem clusterPairs_exists : ∀ (cds : List (List Nat)),
    (∀ c ∈ cds, c.length < 2 ^ 32) → ∃ pb, clusterPairs cds = some pb := by
  intro cds
  induction cds with
  | nil => intro _; exact ⟨[], rfl⟩
  | cons c cs ih =>
    intro h
    obtain ⟨pb, hpb⟩ := ih (fun x hm => h x (List.mem_cons_of_mem _ hm))
    rw [clusterPairs, if_pos (h c (List.mem_cons_self _ _)), hpb]
    exact ⟨_, rfl⟩

/-- Backbone round trip: for a well-formed dictionary, encoding succeeds and
decoding the bytes recovers the structural content, dispatched on whether
the full class name is registered. -/
theorem objectDecode_objectEncode (reg : List (List Nat × List LevelDesc)) (d : ObjDict)
    (h1 : 1 ≤ d.numLevels) (h2 : d.numLevels < 2 ^ 32)
    (h3 : d.versions.length = d.numLevels)
    (h5 : d.clusterData.length = d.numLevels)
    (hn1 : (classNameParts d.className).2 ≠ [])
    (hn2 : (classNameParts d.className).1 = [] → splitColon d.className = none)
    (hfit : (if (classNameParts d.className).1 = [] then 0
        else 1 + (classNameParts d.className).1.length)
        + (1 + (classNameParts d.className).2.length) + 1 ≤ 255)
    (hv : ∀ ver ∈ d.versions,
      ver.1 < 2 ^ 16 ∧ ver.2.1 < 2 ^ 16 ∧ ver.2.2.1 < 2 ^ 16 ∧ ver.2.2.2 < 2 ^ 16)
    (hcl : ∀ c ∈ d.clusterData, c.length < 2 ^ 32) :
    ∃ bs, objectEncode d = some bs ∧
      objectDecode reg bs = some (
        match lookupReg reg d.className with
        | none => .unresolved ⟨d.numLevels, d.className, d.versions, d.clusterData⟩
        | some chain =>
          .inst (populateLevels 0 chain d.clusterData).1 (populateLevels 0 chain d.clusterData).2) := by
  obtain ⟨vb, hvb⟩ := versionsBytes_exists d.versions hv
  have hcluster : ∃ cb, clusterSection d.clusterData = some cb ∧
      readClusters d.numLevels cb = (d.clusterData, []) := by
    by_cases hall : d.clusterData.all (fun c => c.isEmpty)
    · refine ⟨[], by rw [clusterSection, if_pos hall], ?_⟩
      rw [readClusters_short _ _ (by simp)]
      have hrep := all_empty_replicate d.clusterData hall
      rw [h5] at hrep
      rw [← hrep]
    · obtain ⟨pb, hpb⟩ := clusterPairs_exists d.clusterData hcl
      refine ⟨pb, by rw [clusterSection, if_neg hall, hpb], ?_⟩
      have hrc := readClusters_pairs d.clusterData pb [] hpb
      rw [h5] at hrc
      simpa using hrc
  obtain ⟨cb, hcb2, hreadc⟩ := hcluster
  obtain ⟨sec, hsec, hparse⟩ := parseClassName_section (classNameParts d.className).1
    (classNameParts d.className).2 (vb ++ cb) hn1 hfit
  have hjoin : (if (classNameParts d.className).1 = [] then (classNameParts d.className).2
      else (classNameParts d.className).1 ++ 58 :: (classNameParts d.className).2) = d.className :=
    classNameParts_join d.className hn2
  have hrv : readVersions d.numLevels (vb ++ cb) = some (d.versions, cb) := by
    rw [← h3]
    exact readVersions_bytes d.versions vb cb hvb
  have henc : objectEncode d = some (u32be d.numLevels ++ sec ++ vb ++ cb) := by
    rw [objectEncode, if_pos h2, if_neg (show ¬ d.numLevels = 0 by omega)]
    simp only [hsec, hvb, hcb2]
  refine ⟨_, henc, ?_⟩
  rw [objectDecode.eq_def]
  simp only [List.append_assoc]
  rw [readU32_u32be d.numLevels h2]
  simp only [if_neg (show ¬ d.numLevels = 0 by omega), hparse, hjoin, hrv, hreadc]
  cases hlook : lookupReg reg d.className <;> simp [hlook]

theorem splitColon_none : ∀ (bs : List Nat), 58 ∉ bs → splitColon bs = none := by
  intro bs
  induction bs with
  | nil => intro _; rfl
  | cons b bs ih =>
    intro h
    simp only [List.mem_cons, not_or] at h
    rw [splitColon, if_neg (fun he => h.1 he.symm), ih h.2]
    rfl

theorem splitColon_first : ∀ (l c : List Nat), 58 ∉ l → splitColon (l ++ 58 :: c) = some (l, c) := by
  intro l
  induction l with
  | nil => intro c _; simp [splitColon]
  | cons b bs ih =>
    intro c h
    simp only [List.mem_cons, not_or] at h
    rw [List.cons_append, splitColon, if_neg (fun he => h.1 he.symm), ih c h.2]
    rfl

theorem parseElems_concat (pe : List Nat → Option (LVVal × List Nat)) :
    ∀ (ps : List (LVVal × List Nat)) (rest : List Nat),
      (∀ p ∈ ps, ∀ r, pe (p.2 ++ r) = some (p.1, r)) →
      parseElems pe ps.length ((ps.map Prod.snd).flatten ++ rest) = some (ps.map Prod.fst, rest) := by
  intro ps
  induction ps with
  | nil => intro rest _; simp [parseElems]
  | cons p ps ih =>
    intro rest h
    obtain ⟨v, e⟩ := p
    rw [List.length_cons, parseElems]
    simp only [List.map_cons, List.flatten_cons, List.append_assoc,
      h (v, e) (List.mem_cons_self _ _),
      ih rest (fun q hq r => h q (List.mem_cons_of_mem _ hq) r)]

/-- Scalar-only field lists: every field codec is a non-array scalar. -/
def scalarOnly : List FType → Bool
  | [] => true
  | .scalar _ :: fs => scalarOnly fs
  | .array _ :: _ => false

/-- Concatenation of the encodings of a list of items, failing when any
single encoding fails; the specification-side rendering of a headerless,
padding-free field concatenation. -/
def optConcat (f : α → Option (List Nat)) : List α → Option (List Nat)
  | [] => some []
  | x :: xs =>
    match f x, optConcat f xs with
    | some b, some r => some (b ++ r)
    | _, _ => none

theorem clusterDec_clusterEnc : ∀ (fs : List FType) (vs : List LVVal) (bs rest : List Nat),
    scalarOnly fs = true → clusterEnc fs vs = some bs →
    clusterDec fs (bs ++ rest) = some (vs, rest) := by
  intro fs
  induction fs with
  | nil =>
    intro vs bs rest _ h
    cases vs with
    | nil =>
      rw [clusterEnc] at h
      cases h
      simp [clusterDec]
    | cons v vs => exact Option.noConfusion h
  | cons f fs ih =>
    intro vs bs rest hso h
    cases vs with
    | nil => exact Option.noConfusion h
    | cons v vs =>
      cases f with
      | array e => exact Bool.noConfusion hso
      | scalar t =>
        have hso2 : scalarOnly fs = true := hso
        rw [clusterEnc] at h
        match hf : fenc (.scalar t) v with
        | none => rw [hf] at h; exact Option.noConfusion h
        | some b =>
          rw [hf] at h
          match he : clusterEnc fs vs with
          | none => rw [he] at h; exact Option.noConfusion h
          | some r =>
            rw [he] at h
            simp only [Option.map_some'] at h
            cases h
            rw [clusterDec, List.append_assoc]
            have hs2 : fdec (.scalar t) (b ++ (r ++ rest)) = some (v, r ++ rest) :=
              sdec_senc t v b (r ++ rest) hf
            simp only [hs2, ih vs r rest hso2 he]

theorem clusterEnc_concat : ∀ (fs : List FType) (vs : List LVVal),
    fs.length = vs.length →
    clusterEnc fs vs = optConcat (fun p => fenc p.1 p.2) (fs.zip vs) := by
  intro fs
  induction fs with
  | nil =>
    intro vs h
    cases vs with
    | nil => rfl
    | cons v vs => simp at h
  | cons f fs ih =>
    intro vs h
    cases vs with
    | nil => simp at h
    | cons v vs =>
      rw [clusterEnc, List.zip_cons_cons, optConcat, ← ih vs (by simpa using h)]
      match hf : fenc f v with
      | none => rfl
      | some b =>
        match he : clusterEnc fs vs with
        | none => rfl
        | some r => rfl

theorem serializeFields_concat : ∀ (hints : List (List Nat × FType)) (vals : List (List Nat × LVVal)),
    serializeFields vals hints
      = optConcat (fun p => fenc p.2
          (match lookupV p.1 vals with | some v => v | none => defaultVal p.2)) hints := by
  intro hints
  induction hints with
  | nil => intro vals; rfl
  | cons p hints ih =>
    intro vals
    obtain ⟨n, t⟩ := p
    rw [serializeFields, optConcat, ← ih vals]
    match hf : fenc t (match lookupV n vals with | some v => v | none => defaultVal t) with
    | none => rfl
    | some b =>
      match hs : serializeFields vals hints with
      | none => rfl
      | some r => rfl

/-- All-or-nothing sequential field decoding, used to express which prefix
of a hint list decodes cleanly. -/
def decFieldsOk : List (List Nat × FType) → List Nat → Option (List (List Nat × LVVal) × List Nat)
  | [], s => some ([], s)
  | (n, t) :: hs, s =>
    match fdec t s with
    | none => none
    | some (v, s2) =>
      match decFieldsOk hs s2 with
      | none => none
      | some (fs, s3) => some ((n, v) :: fs, s3)

/-- The partial decoder returns exactly the cleanly decoded prefix and
flags the first failing field, whatever hints follow it. -/
theorem decFieldsPartial_fail : ∀ (pre : List (List Nat × FType)) (nm : List Nat) (t : FType)
    (post : List (List Nat × FType)) (s : List Nat) (vs : List (List Nat × LVVal)) (s2 : List Nat),
    decFieldsOk pre s = some (vs, s2) → fdec t s2 = none →
    decFieldsPartial (pre ++ (nm, t) :: post) s = (vs, true) := by
  intro pre
  induction pre with
  | nil =>
    intro nm t post s vs s2 hok hfail
    rw [decFieldsOk] at hok
    cases hok
    rw [List.nil_append, decFieldsPartial, hfail]
  | cons p pre ih =>
    intro nm t post s vs s2 hok hfail
    obtain ⟨n0, t0⟩ := p
    match hf : fdec t0 s with
    | none =>
      rw [decFieldsOk, hf] at hok
      exact Option.noConfusion hok
    | some (v0, s1) =>
      have hok2 : (match decFieldsOk pre s1 with
          | none => none
          | some (fs, s3) => some ((n0, v0) :: fs, s3)) = some (vs, s2) := by
        rw [← hok, decFieldsOk, hf]
      match hd : decFieldsOk pre s1 with
      | none => rw [hd] at hok2; exact Option.noConfusion hok2
      | some (fs0, s3) =>
        rw [hd] at hok2
        simp only [Option.some.injEq, Prod.mk.injEq] at hok2
        obtain ⟨hv, hs⟩ := hok2
        subst hs
        rw [List.cons_append, decFieldsPartial, hf]
        show ((n0, v0) :: (decFieldsPartial (pre ++ (nm, t) :: post) s1).1,
          (decFieldsPartial (pre ++ (nm, t) :: post) s1).2) = (vs, true)
        rw [ih nm t post s1 fs0 s3 hd hfail]
        simp [← hv]

/-- The partial decoder succeeds without a diagnostic exactly when every
hint decodes. -/
theorem decFieldsPartial_ok : ∀ (hints : List (List Nat × FType)) (s : List Nat)
    (vs : List (List Nat × LVVal)) (s2 : List Nat),
    decFieldsOk hints s = some (vs, s2) →
    decFieldsPartial hints s = (vs, false) := by
  intro hints
  induction hints with
  | nil =>
    intro s vs s2 hok
    rw [decFieldsOk] at hok
    cases hok
    rfl
  | cons p hints ih =>
    intro s vs s2 hok
    obtain ⟨n0, t0⟩ := p
    match hf : fdec t0 s with
    | none =>
      rw [decFieldsOk, hf] at hok
      exact Option.noConfusion hok
    | some (v0, s1) =>
      have hok2 : (match decFieldsOk hints s1 with
          | none => none
          | some (fs, s3) => some ((n0, v0) :: fs, s3)) = some (vs, s2) := by
        rw [← hok, decFieldsOk, hf]
      match hd : decFieldsOk hints s1 with
      | none => rw [hd] at hok2; exact Option.noConfusion hok2
      | some (fs0, s3) =>
        rw [hd] at hok2
        simp only [Option.some.injEq, Prod.mk.injEq] at hok2
        obtain ⟨hv, hs⟩ := hok2
        subst hs
        rw [decFieldsPartial, hf]
        show ((n0, v0) :: (decFieldsPartial hints s1).1,
          (decFieldsPartial hints s1).2) = (vs, false)
        rw [ih s1 fs0 s3 hd]
        simp [← hv]

/-- A level whose field decoding flags a diagnostic has its index reported
by the population loop. -/
theorem populateLevels_mem : ∀ (ls : List LevelDesc) (cbs : List (List Nat)) (idx i : Nat)
    (hi : i < ls.length) (hic : i < cbs.length),
    (deserializeTypeHints ls[i].hints cbs[i]).2 = true →
    (idx + i) ∈ (populateLevels idx ls cbs).2 := by
  intro ls
  induction ls with
  | nil => intro cbs idx i hi; simp at hi
  | cons l ls ih =>
    intro cbs idx i hi hic hbad
    cases cbs with
    | nil => simp at hic
    | cons cb cbs =>
      rw [populateLevels]
      cases i with
      | zero =>
        simp only [List.getElem_cons_zero] at hbad
        simp [hbad]
      | succ i =>
        simp only [List.getElem_cons_succ] at hbad
        have := ih cbs (idx + 1) i (by simpa using hi) (by simpa using hic) hbad
        have harith : idx + 1 + i = idx + (i + 1) := by omega
        rw [harith] at this
        simp [this]

/-- Every field the per-level decoder recovered appears among the populated
instance fields. -/
theorem populateLevels_fields_mem : ∀ (ls : List LevelDesc) (cbs : List (List Nat)) (idx i : Nat)
    (hi : i < ls.length) (hic : i < cbs.length) (pr : List Nat × LVVal),
    pr ∈ (deserializeTypeHints ls[i].hints cbs[i]).1 →
    pr ∈ (populateLevels idx ls cbs).1 := by
  intro ls
  induction ls with
  | nil => intro cbs idx i hi; simp at hi
  | cons l ls ih =>
    intro cbs idx i hi hic pr hmem
    cases cbs with
    | nil => simp at hic
    | cons cb cbs =>
      rw [populateLevels]
      cases i with
      | zero =>
        simp only [List.getElem_cons_zero] at hmem
        simp [hmem]
      | succ i =>
        simp only [List.getElem_cons_succ] at hmem
        have := ih cbs (idx + 1) i (by simpa using hi) (by simpa using hic) pr hmem
        simp [this]

theorem levelBytesList_nohints : ∀ (ls : List LevelDesc) (vals : List (List Nat × LVVal)),
    (∀ l ∈ ls, l.hints = []) →
    levelBytesList vals ls = some (List.replicate ls.length []) := by
  intro ls
  induction ls with
  | nil => intro vals _; rfl
  | cons l ls ih =>
    intro vals h
    rw [levelBytesList]
    have hl : l.hints = [] := h l (List.mem_cons_self _ _)
    have hst : serializeTypeHints l.hints vals = some [] := by
      rw [hl, serializeTypeHints, if_pos rfl]
    rw [hst, ih vals (fun x hx => h x (List.mem_cons_of_mem _ hx))]
    simp [List.replicate_succ]

/-!
Claim theorems.
-/

theorem senc_closed (t : SType) (v : LVVal) (bs : List Nat) (h : senc t v = some bs) :
    sdec t bs = some (v, []) := by
  have h2 := sdec_senc t v bs [] h
  rwa [List.append_nil] at h2

/-- C6: Boolean encode always writes exactly one byte, 0x00 for false and
0x01 for true, and boolean decode raises an error for any input byte other
than 0x00 or 0x01; in particular decoding the byte 0x02 fails rather than
yielding true. -/
theorem C6_boolean_strict :
    (∀ b : Bool, (boolEnc b).length = 1)
    ∧ boolEnc false = [0] ∧ boolEnc true = [1]
    ∧ (∀ (byte : Nat) (rest : List Nat), byte ≠ 0 → byte ≠ 1 →
        boolDec (byte :: rest) = none)
    ∧ boolDec [2] = none := by
  refine ⟨fun b => by cases b <;> rfl, rfl, rfl, ?_, rfl⟩
  intro byte rest h0 h1
  simp [boolDec, h0, h1]

theorem C6_boolean_strict_witness : boolDec (2 :: [5]) = none :=
  C6_boolean_strict.2.2.2.1 2 [5] (by decide) (by decide)

/-- C9: for every scalar wire kind (signed and unsigned fixed-width
integers of widths 8, 16, 32 and 64, the 32- and 64-bit float bit
patterns, boolean, length-prefixed string) and every representable value,
decoding the encoding returns the value. -/
theorem C9_scalar_roundtrip :
    (∀ v : Int, -(2 ^ 7) ≤ v → v < 2 ^ 7 →
      ∃ bs, senc .i8 (.int v) = some bs ∧ sdec .i8 bs = some (.int v, []))
    ∧ (∀ v : Int, -(2 ^ 15) ≤ v → v < 2 ^ 15 →
      ∃ bs, senc .i16 (.int v) = some bs ∧ sdec .i16 bs = some (.int v, []))
    ∧ (∀ v : Int, -(2 ^ 31) ≤ v → v < 2 ^ 31 →
      ∃ bs, senc .i32 (.int v) = some bs ∧ sdec .i32 bs = some (.int v, []))
    ∧ (∀ v : Int, -(2 ^ 63) ≤ v → v < 2 ^ 63 →
      ∃ bs, senc .i64 (.int v) = some bs ∧ sdec .i64 bs = some (.int v, []))
    ∧ (∀ n : Nat, n < 2 ^ 8 →
      ∃ bs, senc .u8 (.nat n) = some bs ∧ sdec .u8 bs = some (.nat n, []))
    ∧ (∀ n : Nat, n < 2 ^ 16 →
      ∃ bs, senc .u16 (.nat n) = some bs ∧ sdec .u16 bs = some (.nat n, []))
    ∧ (∀ n : Nat, n < 2 ^ 32 →
      ∃ bs, senc .u32 (.nat n) = some bs ∧ sdec .u32 bs = some (.nat n, []))
    ∧ (∀ n : Nat, n < 2 ^ 64 →
      ∃ bs, senc .u64 (.nat n) = some bs ∧ sdec .u64 bs = some (.nat n, []))
    ∧ (∀ n : Nat, n < 2 ^ 32 →
      ∃ bs, senc .f32 (.nat n) = some bs ∧ sdec .f32 bs = some (.nat n, []))
    ∧ (∀ n : Nat, n < 2 ^ 64 →
      ∃ bs, senc .f64 (.nat n) = some bs ∧ sdec .f64 bs = some (.nat n, []))
    ∧ (∀ b : Bool, ∃ bs, senc .boolean (.bool b) = some bs
        ∧ sdec .boolean bs = some (.bool b, []))
    ∧ (∀ s : List Nat, s.length < 2 ^ 32 →
      ∃ bs, senc .str (.str s) = some bs ∧ sdec .str bs = some (.str s, [])) := by
  refine ⟨?_, ?_, ?_, ?_, ?_, ?_, ?_, ?_, ?_, ?_, ?_, ?_⟩
  · intro v h1 h2
    obtain ⟨bs, he, _⟩ := intDec_intEnc 1 (by norm_num) v h1 h2 []
    exact ⟨bs, he, senc_closed _ _ _ he⟩
  · intro v h1 h2
    obtain ⟨bs, he, _⟩ := intDec_intEnc 2 (by norm_num) v h1 h2 []
    exact ⟨bs, he, senc_closed _ _ _ he⟩
  · intro v h1 h2
    obtain ⟨bs, he, _⟩ := intDec_intEnc 4 (by norm_num) v h1 h2 []
    exact ⟨bs, he, senc_closed _ _ _ he⟩
  · intro v h1 h2
    obtain ⟨bs, he, _⟩ := intDec_intEnc 8 (by norm_num) v h1 h2 []
    exact ⟨bs, he, senc_closed _ _ _ he⟩
  · intro n h
    obtain ⟨bs, he, _⟩ := uintDec_uintEnc 1 n h []
    exact ⟨bs, he, senc_closed _ _ _ he⟩
  · intro n h
    obtain ⟨bs, he, _⟩ := uintDec_uintEnc 2 n h []
    exact ⟨bs, he, senc_closed _ _ _ he⟩
  · intro n h
    obtain ⟨bs, he, _⟩ := uintDec_uintEnc 4 n h []
    exact ⟨bs, he, senc_closed _ _ _ he⟩
  · intro n h
    obtain ⟨bs, he, _⟩ := uintDec_uintEnc 8 n h []
    exact ⟨bs, he, senc_closed _ _ _ he⟩
  · intro n h
    obtain ⟨bs, he, _⟩ := uintDec_uintEnc 4 n h []
    exact ⟨bs, he, senc_closed _ _ _ he⟩
  · intro n h
    obtain ⟨bs, he, _⟩ := uintDec_uintEnc 8 n h []
    exact ⟨bs, he, senc_closed _ _ _ he⟩
  · intro b
    exact ⟨boolEnc b, rfl, senc_closed _ _ _ rfl⟩
  · intro s h
    obtain ⟨bs, he, _⟩ := strDec_strEnc s h []
    exact ⟨bs, he, senc_closed _ _ _ he⟩

theorem C9_scalar_roundtrip_witness :
    (∃ bs, senc .i8 (.int (-1)) = some bs ∧ sdec .i8 bs = some (.int (-1), []))
    ∧ (∃ bs, senc .i32 (.int (-(2 ^ 31))) = some bs ∧ sdec .i32 bs = some (.int (-(2 ^ 31)), []))
    ∧ (∃ bs, senc .i64 (.int (2 ^ 63 - 1)) = some bs ∧ sdec .i64 bs = some (.int (2 ^ 63 - 1), []))
    ∧ (∃ bs, senc .u64 (.nat (2 ^ 64 - 1)) = some bs ∧ sdec .u64 bs = some (.nat (2 ^ 64 - 1), []))
    ∧ (∃ bs, senc .u8 (.nat 0) = some bs ∧ sdec .u8 bs = some (.nat 0, []))
    ∧ (∃ bs, senc .str (.str [72, 105]) = some bs ∧ sdec .str bs = some (.str [72, 105], [])) :=
  ⟨C9_scalar_roundtrip.1 (-1) (by norm_num) (by norm_num),
   C9_scalar_roundtrip.2.2.1 (-(2 ^ 31)) (by norm_num) (by norm_num),
   C9_scalar_roundtrip.2.2.2.1 (2 ^ 63 - 1) (by norm_num) (by norm_num),
   C9_scalar_roundtrip.2.2.2.2.2.2.2.1 (2 ^ 64 - 1) (by norm_num),
   C9_scalar_roundtrip.2.2.2.2.1 0 (by norm_num),
   C9_scalar_roundtrip.2.2.2.2.2.2.2.2.2.2.2 [72, 105] (by norm_num)⟩

/-- C10: a level with declared fields serializes to zero bytes when none of
its declared fields has a value on the instance; as soon as at least one
declared field has a value, every declared field is encoded in declaration
order, missing values replaced by the type-specific zero defaults. -/
theorem C10_level_serialization :
    (∀ (hints : List (List Nat × FType)) (vals : List (List Nat × LVVal)),
      (∀ p ∈ hints, (lookupV p.1 vals).isNone = true) →
      serializeTypeHints hints vals = some [])
    ∧ (∀ (hints : List (List Nat × FType)) (vals : List (List Nat × LVVal)),
      (∃ p ∈ hints, (lookupV p.1 vals).isSome = true) →
      serializeTypeHints hints vals
        = optConcat (fun p => fenc p.2
            (match lookupV p.1 vals with | some v => v | none => defaultVal p.2)) hints) := by
  constructor
  · intro hints vals h
    rw [serializeTypeHints]
    by_cases hh : hints = []
    · rw [if_pos hh]
    · rw [if_neg hh, if_pos (List.all_eq_true.mpr h)]
  · intro hints vals h
    obtain ⟨p0, hp0, hsome⟩ := h
    have hne : hints ≠ [] := by
      intro he
      rw [he] at hp0
      simp at hp0
    have hnall : ¬ hints.all (fun p => (lookupV p.1 vals).isNone) = true := by
      intro hall
      have := List.all_eq_true.mp hall p0 hp0
      rw [Option.isNone_iff_eq_none] at this
      rw [this] at hsome
      simp at hsome
    rw [serializeTypeHints, if_neg hne, if_neg hnall, serializeFields_concat]

theorem C10_level_serialization_witness :
    serializeTypeHints [([97], .scalar .i32), ([98], .scalar .str)] [] = some []
    ∧ serializeTypeHints [([97], .scalar .i32), ([98], .scalar .str)] [([97], .int 7)]
      = optConcat (fun p => fenc p.2
          (match lookupV p.1 [([97], .int 7)] with | some v => v | none => defaultVal p.2))
          [([97], .scalar .i32), ([98], .scalar .str)] :=
  ⟨C10_level_serialization.1 [([97], .scalar .i32), ([98], .scalar .str)] [] (by decide),
   C10_level_serialization.2 [([97], .scalar .i32), ([98], .scalar .str)] [([97], .int 7)]
     ⟨([97], .scalar .i32), by decide⟩⟩

/-- C3: evaluation at the failing input.  A two-level chain declares root
version (1,0,0,0) and leaf version (2,0,0,0); the append-then-reverse step
in _instance_to_lvobject_dict emits the VersionList most-derived first, so
decoding the encoding returns the leaf version at level 0 and the root
version at level 1, not the declared per-level order. -/
theorem C3_version_order_eval :
    instanceToDict [⟨[], [77], 1, 0, 0, 0, []⟩, ⟨[], [78], 2, 0, 0, 0, []⟩] []
      = some ⟨2, [78, 46, 108, 118, 99, 108, 97, 115, 115], [(2,0,0,0), (1,0,0,0)], [[], []]⟩
    ∧ objectEncode ⟨2, [78, 46, 108, 118, 99, 108, 97, 115, 115], [(2,0,0,0), (1,0,0,0)], [[], []]⟩
      = some ([0,0,0,2] ++ [11, 9, 78, 46, 108, 118, 99, 108, 97, 115, 115, 0]
          ++ [0,2,0,0,0,0,0,0, 0,1,0,0,0,0,0,0])
    ∧ objectDecode [] ([0,0,0,2] ++ [11, 9, 78, 46, 108, 118, 99, 108, 97, 115, 115, 0]
          ++ [0,2,0,0,0,0,0,0, 0,1,0,0,0,0,0,0])
      = some (.unresolved ⟨2, [78, 46, 108, 118, 99, 108, 97, 115, 115],
          [(2,0,0,0), (1,0,0,0)], [[], []]⟩)
    ∧ [((2:Nat),(0:Nat),(0:Nat),(0:Nat)), (1,0,0,0)] ≠ [((1:Nat),(0:Nat),(0:Nat),(0:Nat)), (2,0,0,0)] :=
  ⟨rfl, rfl, rfl, by decide⟩

/-- C5 counterexample: with a non-empty library and an empty class name the
encoder emits the class-name Pascal string with length byte zero, which the
decoder takes as the terminator, so the section does not parse back as its
mirror. -/
theorem C5_empty_classname_counterexample :
    classNameSection [65] [] = some [4, 1, 65, 0, 0, 0, 0, 0]
    ∧ parseClassName ([4, 1, 65, 0, 0, 0, 0, 0] ++ []) = some ([], [65], [0, 0, 0, 0])
    ∧ parseClassName ([4, 1, 65, 0, 0, 0, 0, 0] ++ []) ≠ some ([65], [], []) := by
  refine ⟨rfl, rfl, fun h => ?_⟩
  rw [show parseClassName ([4, 1, 65, 0, 0, 0, 0, 0] ++ []) = some ([], [65], [0, 0, 0, 0]) from rfl] at h
  simp at h

/-- C5 as amended: the ClassName section is the u8 total length over the
Pascal strings plus terminator, then the Pascal strings with the library
omitted entirely when empty, then a zero terminator, then zero padding to
the next multiple of 4 counted from the section start; and whenever the
class name is non-empty, decode parses the section as its exact mirror. -/
theorem C5_classname_section :
    (∀ lib cls : List Nat,
      (if lib = [] then 0 else 1 + lib.length) + (1 + cls.length) + 1 ≤ 255 →
      classNameSection lib cls = some (
        (((if lib = [] then 0 else 1 + lib.length) + (1 + cls.length) + 1)
          :: ((if lib = [] then [] else lib.length :: lib) ++ (cls.length :: cls) ++ [0]))
        ++ List.replicate
            (pad4 (1 + ((if lib = [] then 0 else 1 + lib.length) + (1 + cls.length) + 1))) 0))
    ∧ (∀ lib cls rest : List Nat, cls ≠ [] →
      (if lib = [] then 0 else 1 + lib.length) + (1 + cls.length) + 1 ≤ 255 →
      ∃ sec, classNameSection lib cls = some sec
        ∧ parseClassName (sec ++ rest) = some (lib, cls, rest)) :=
  ⟨fun lib cls hfit => by rw [classNameSection, if_pos hfit],
   fun lib cls rest hc hfit => parseClassName_section lib cls rest hc hfit⟩

theorem C5_classname_section_witness :
    ∃ sec, classNameSection [76, 105, 98] [67] = some sec
      ∧ parseClassName (sec ++ [9, 9]) = some ([76, 105, 98], [67], [9, 9]) :=
  C5_classname_section.2 [76, 105, 98] [67] [9, 9] (by decide) (by decide)

/-- C7 counterexample: an N-dimension-inferring array field in non-final
position consumes the following field's bytes (its byte-count search sees
the whole remaining stream), so the cluster does not decode back to the
original tuple. -/
theorem C7_array_field_counterexample :
    clusterEnc [.array .i32, .scalar .i32] [.arr (.cons (.int 1) .nil), .int 7]
      = some [0,0,0,1, 0,0,0,1, 0,0,0,7]
    ∧ clusterDec [.array .i32, .scalar .i32] ([0,0,0,1, 0,0,0,1, 0,0,0,7] ++ [])
      = none :=
  ⟨rfl, rfl⟩

/-- C7 as amended: cluster encode is exactly the headerless, padding-free
concatenation of the per-field encodings in declared order; and for
schemas of scalar fields (fixed-width integers, floats, boolean, strings),
cluster decode of the encoding returns the original tuple. -/
theorem C7_cluster_concat_roundtrip :
    (∀ (fs : List FType) (vs : List LVVal), fs.length = vs.length →
      clusterEnc fs vs = optConcat (fun p => fenc p.1 p.2) (fs.zip vs))
    ∧ (∀ (fs : List FType) (vs : List LVVal) (bs rest : List Nat),
      scalarOnly fs = true → clusterEnc fs vs = some bs →
      clusterDec fs (bs ++ rest) = some (vs, rest)) :=
  ⟨clusterEnc_concat, clusterDec_clusterEnc⟩

theorem C7_cluster_concat_roundtrip_witness :
    clusterDec [.scalar .i32, .scalar .str, .scalar .i32]
        ([0,0,0,5, 0,0,0,2, 72, 105, 255,255,255,255] ++ [9])
      = some ([.int 5, .str [72, 105], .int (-1)], [9]) :=
  C7_cluster_concat_roundtrip.2 [.scalar .i32, .scalar .str, .scalar .i32]
    [.int 5, .str [72, 105], .int (-1)] [0,0,0,5, 0,0,0,2, 72, 105, 255,255,255,255] [9]
    (by decide) (by decide)

/-- C4: for every well-formed object byte stream whose most-derived
qualified class name is not present in the registry, object decode does
not fail: it returns the structural result carrying the level count, the
recovered class name, the per-level versions and the raw per-level cluster
bytes (the unresolved variant is the diagnostic path). -/
theorem C4_unregistered_structural (reg : List (List Nat × List LevelDesc)) (d : ObjDict)
    (h1 : 1 ≤ d.numLevels) (h2 : d.numLevels < 2 ^ 32)
    (h3 : d.versions.length = d.numLevels)
    (h5 : d.clusterData.length = d.numLevels)
    (hn1 : (classNameParts d.className).2 ≠ [])
    (hn2 : (classNameParts d.className).1 = [] → splitColon d.className = none)
    (hfit : (if (classNameParts d.className).1 = [] then 0
        else 1 + (classNameParts d.className).1.length)
        + (1 + (classNameParts d.className).2.length) + 1 ≤ 255)
    (hv : ∀ ver ∈ d.versions,
      ver.1 < 2 ^ 16 ∧ ver.2.1 < 2 ^ 16 ∧ ver.2.2.1 < 2 ^ 16 ∧ ver.2.2.2 < 2 ^ 16)
    (hcl : ∀ c ∈ d.clusterData, c.length < 2 ^ 32)
    (hnr : lookupReg reg d.className = none) :
    ∃ bs, objectEncode d = some bs ∧
      objectDecode reg bs
        = some (.unresolved ⟨d.numLevels, d.className, d.versions, d.clusterData⟩) := by
  obtain ⟨bs, he, hd⟩ := objectDecode_objectEncode reg d h1 h2 h3 h5 hn1 hn2 hfit hv hcl
  rw [hnr] at hd
  exact ⟨bs, he, hd⟩

theorem C4_unregistered_structural_witness :
    ∃ bs, objectEncode ⟨1, [65, 58, 66], [(1, 2, 3, 4)], [[5]]⟩ = some bs ∧
      objectDecode [] bs
        = some (.unresolved ⟨1, [65, 58, 66], [(1, 2, 3, 4)], [[5]]⟩) :=
  C4_unregistered_structural [] ⟨1, [65, 58, 66], [(1, 2, 3, 4)], [[5]]⟩
    (by decide) (by decide) (by decide) (by decide) (by decide) (by decide)
    (by decide) (by decide) (by decide) rfl

/-- C8: when the class resolves in the registry, a failure while decoding
one level's own fields is caught for that level individually: decode still
returns the populated instance variant, the first failing field stops that
level with the cleanly decoded prefix kept and the diagnostic flag raised,
the failing level's index is reported, and every recovered field survives
into the returned instance. -/
theorem C8_resolved_best_effort :
    (∀ (reg : List (List Nat × List LevelDesc)) (d : ObjDict) (chain : List LevelDesc),
      1 ≤ d.numLevels → d.numLevels < 2 ^ 32 →
      d.versions.length = d.numLevels →
      d.clusterData.length = d.numLevels →
      (classNameParts d.className).2 ≠ [] →
      ((classNameParts d.className).1 = [] → splitColon d.className = none) →
      (if (classNameParts d.className).1 = [] then 0
        else 1 + (classNameParts d.className).1.length)
        + (1 + (classNameParts d.className).2.length) + 1 ≤ 255 →
      (∀ ver ∈ d.versions,
        ver.1 < 2 ^ 16 ∧ ver.2.1 < 2 ^ 16 ∧ ver.2.2.1 < 2 ^ 16 ∧ ver.2.2.2 < 2 ^ 16) →
      (∀ c ∈ d.clusterData, c.length < 2 ^ 32) →
      lookupReg reg d.className = some chain →
      ∃ bs, objectEncode d = some bs ∧
        objectDecode reg bs = some (.inst (populateLevels 0 chain d.clusterData).1
          (populateLevels 0 chain d.clusterData).2))
    ∧ (∀ (pre : List (List Nat × FType)) (nm : List Nat) (t : FType)
        (post : List (List Nat × FType)) (s : List Nat) (vs : List (List Nat × LVVal)) (s2 : List Nat),
      decFieldsOk pre s = some (vs, s2) → fdec t s2 = none →
      decFieldsPartial (pre ++ (nm, t) :: post) s = (vs, true))
    ∧ (∀ (ls : List LevelDesc) (cbs : List (List Nat)) (idx i : Nat)
        (hi : i < ls.length) (hic : i < cbs.length),
      (deserializeTypeHints ls[i].hints cbs[i]).2 = true →
      (idx + i) ∈ (populateLevels idx ls cbs).2)
    ∧ (∀ (ls : List LevelDesc) (cbs : List (List Nat)) (idx i : Nat)
        (hi : i < ls.length) (hic : i < cbs.length) (pr : List Nat × LVVal),
      pr ∈ (deserializeTypeHints ls[i].hints cbs[i]).1 →
      pr ∈ (populateLevels idx ls cbs).1) := by
  refine ⟨?_, decFieldsPartial_fail, populateLevels_mem, populateLevels_fields_mem⟩
  intro reg d chain h1 h2 h3 h5 hn1 hn2 hfit hv hcl hr
  obtain ⟨bs, he, hd⟩ := objectDecode_objectEncode reg d h1 h2 h3 h5 hn1 hn2 hfit hv hcl
  rw [hr] at hd
  exact ⟨bs, he, hd⟩

theorem C8_resolved_best_effort_witness :
    ∃ bs, objectEncode ⟨1, [75, 46, 108, 118, 99, 108, 97, 115, 115], [(1, 0, 0, 0)], [[1, 2]]⟩
        = some bs ∧
      objectDecode [([75, 46, 108, 118, 99, 108, 97, 115, 115],
          [⟨[], [75], 1, 0, 0, 0, [([97], .scalar .i32)]⟩])] bs
        = some (.inst [] [0]) :=
  C8_resolved_best_effort.1
    [([75, 46, 108, 118, 99, 108, 97, 115, 115], [⟨[], [75], 1, 0, 0, 0, [([97], .scalar .i32)]⟩])]
    ⟨1, [75, 46, 108, 118, 99, 108, 97, 115, 115], [(1, 0, 0, 0)], [[1, 2]]⟩
    [⟨[], [75], 1, 0, 0, 0, [([97], .scalar .i32)]⟩]
    (by decide) (by decide) (by decide) (by decide) (by decide) (by decide)
    (by decide) (by decide) (by decide) rfl

theorem objectEncode_parts (d : ObjDict) (h2 : d.numLevels < 2 ^ 32) (h0 : ¬ d.numLevels = 0)
    (sec vb cb : List Nat)
    (hsec : classNameSection (classNameParts d.className).1 (classNameParts d.className).2 = some sec)
    (hvb : versionsBytes d.versions = some vb)
    (hcb : clusterSection d.clusterData = some cb) :
    objectEncode d = some (u32be d.numLevels ++ sec ++ vb ++ cb) := by
  rw [objectEncode, if_pos h2, if_neg h0]
  simp only [hsec, hvb, hcb]

/-- C2 counterexample: a stream whose single level declares five cluster
bytes but ends after one is exhausted during the ClusterData section, yet
decode hands that level the truncated byte rather than treating it as
empty. -/
theorem C2_truncated_level_counterexample :
    objectDecode [] ([0,0,0,1] ++ [3, 1, 65, 0] ++ [0,0,0,0, 0,0,0,0] ++ [0,0,0,5, 170])
      = some (.unresolved ⟨1, [65], [(0,0,0,0)], [[170]]⟩)
    ∧ [[170]] ≠ [([] : List Nat)] :=
  ⟨rfl, by decide⟩

/-- C2 as amended: when every level's byte block is empty, object encode
emits NumLevels, the ClassName section and the full VersionList with no
ClusterData bytes at all; otherwise it emits one u32-length-plus-bytes pair
per level, zero-length levels included; decode of a stream exhausted at a
level's length header treats that level and all remaining levels as empty
(a level whose length header was read but whose data is truncated receives
the truncated bytes); and a 2-level chain with no fields anywhere
round-trips to 2 empty levels. -/
theorem C2_empty_cluster_omission :
    (∀ (d : ObjDict), d.numLevels < 2 ^ 32 → ¬ d.numLevels = 0 →
      (if (classNameParts d.className).1 = [] then 0
        else 1 + (classNameParts d.className).1.length)
        + (1 + (classNameParts d.className).2.length) + 1 ≤ 255 →
      (∀ ver ∈ d.versions,
        ver.1 < 2 ^ 16 ∧ ver.2.1 < 2 ^ 16 ∧ ver.2.2.1 < 2 ^ 16 ∧ ver.2.2.2 < 2 ^ 16) →
      d.clusterData.all (fun c => c.isEmpty) = true →
      ∃ sec vb, classNameSection (classNameParts d.className).1 (classNameParts d.className).2
          = some sec
        ∧ versionsBytes d.versions = some vb
        ∧ objectEncode d = some (u32be d.numLevels ++ sec ++ vb))
    ∧ (∀ (d : ObjDict), d.numLevels < 2 ^ 32 → ¬ d.numLevels = 0 →
      (if (classNameParts d.className).1 = [] then 0
        else 1 + (classNameParts d.className).1.length)
        + (1 + (classNameParts d.className).2.length) + 1 ≤ 255 →
      (∀ ver ∈ d.versions,
        ver.1 < 2 ^ 16 ∧ ver.2.1 < 2 ^ 16 ∧ ver.2.2.1 < 2 ^ 16 ∧ ver.2.2.2 < 2 ^ 16) →
      (∀ c ∈ d.clusterData, c.length < 2 ^ 32) →
      ¬ d.clusterData.all (fun c => c.isEmpty) = true →
      ∃ sec vb pb, clusterPairs d.clusterData = some pb
        ∧ objectEncode d = some (u32be d.numLevels ++ sec ++ vb ++ pb))
    ∧ (∀ (n : Nat) (s : List Nat), s.length < 4 →
      readClusters n s = (List.replicate n [], s))
    ∧ (∀ (l0 l1 : LevelDesc) (vals : List (List Nat × LVVal)),
      l0.hints = [] → l1.hints = [] →
      (classNameParts (fullClassName l1)).2 ≠ [] →
      ((classNameParts (fullClassName l1)).1 = [] → splitColon (fullClassName l1) = none) →
      (if (classNameParts (fullClassName l1)).1 = [] then 0
        else 1 + (classNameParts (fullClassName l1)).1.length)
        + (1 + (classNameParts (fullClassName l1)).2.length) + 1 ≤ 255 →
      l0.major < 2 ^ 16 → l0.minor < 2 ^ 16 → l0.patch < 2 ^ 16 → l0.build < 2 ^ 16 →
      l1.major < 2 ^ 16 → l1.minor < 2 ^ 16 → l1.patch < 2 ^ 16 → l1.build < 2 ^ 16 →
      ∃ bs, instanceToDict [l0, l1] vals
          = some ⟨2, fullClassName l1,
              [(l1.major, l1.minor, l1.patch, l1.build), (l0.major, l0.minor, l0.patch, l0.build)],
              [[], []]⟩
        ∧ objectEncode ⟨2, fullClassName l1,
              [(l1.major, l1.minor, l1.patch, l1.build), (l0.major, l0.minor, l0.patch, l0.build)],
              [[], []]⟩ = some bs
        ∧ objectDecode [] bs
          = some (.unresolved ⟨2, fullClassName l1,
              [(l1.major, l1.minor, l1.patch, l1.build), (l0.major, l0.minor, l0.patch, l0.build)],
              [[], []]⟩)) := by
  refine ⟨?_, ?_, readClusters_short, ?_⟩
  · intro d h2 h0 hfit hv hall
    obtain ⟨vb, hvb⟩ := versionsBytes_exists d.versions hv
    have hsec : ∃ sec, classNameSection (classNameParts d.className).1
        (classNameParts d.className).2 = some sec := by
      rw [classNameSection, if_pos hfit]
      exact ⟨_, rfl⟩
    obtain ⟨sec, hsec⟩ := hsec
    have hcb : clusterSection d.clusterData = some [] := by
      rw [clusterSection, if_pos hall]
    have := objectEncode_parts d h2 h0 sec vb [] hsec hvb hcb
    exact ⟨sec, vb, hsec, hvb, by simpa using this⟩
  · intro d h2 h0 hfit hv hcl hnall
    obtain ⟨vb, hvb⟩ := versionsBytes_exists d.versions hv
    have hsec : ∃ sec, classNameSection (classNameParts d.className).1
        (classNameParts d.className).2 = some sec := by
      rw [classNameSection, if_pos hfit]
      exact ⟨_, rfl⟩
    obtain ⟨sec, hsec⟩ := hsec
    obtain ⟨pb, hpb⟩ := clusterPairs_exists d.clusterData hcl
    have hcb : clusterSection d.clusterData = some pb := by
      rw [clusterSection, if_neg hnall, hpb]
    exact ⟨sec, vb, pb, hpb, objectEncode_parts d h2 h0 sec vb pb hsec hvb hcb⟩
  · intro l0 l1 vals hh0 hh1 hn1 hn2 hfit b1 b2 b3 b4 b5 b6 b7 b8
    have hlb : levelBytesList vals [l0, l1] = some [[], []] := by
      have := levelBytesList_nohints [l0, l1] vals (by
        intro x hx
        rcases List.mem_cons.mp hx with rfl | hx2
        · exact hh0
        · rcases List.mem_cons.mp hx2 with rfl | hx3
          · exact hh1
          · simp at hx3)
      simpa using this
    have hlast : lastLevel [l0, l1] = some l1 := rfl
    have hid : instanceToDict [l0, l1] vals
        = some ⟨2, fullClassName l1,
            [(l1.major, l1.minor, l1.patch, l1.build), (l0.major, l0.minor, l0.patch, l0.build)],
            [[], []]⟩ := by
      simp [instanceToDict, hlast, hlb]
    obtain ⟨bs, he, hd⟩ := objectDecode_objectEncode []
      ⟨2, fullClassName l1,
        [(l1.major, l1.minor, l1.patch, l1.build), (l0.major, l0.minor, l0.patch, l0.build)],
        [[], []]⟩
      (by norm_num) (by norm_num) (by simp) (by simp) hn1 hn2 hfit
      (by
        intro ver hver
        rcases List.mem_cons.mp hver with rfl | hver2
        · exact ⟨b5, b6, b7, b8⟩
        · rcases List.mem_cons.mp hver2 with rfl | hver3
          · exact ⟨b1, b2, b3, b4⟩
          · simp at hver3)
      (by intro c hc; rcases List.mem_cons.mp hc with rfl | hc2
          · norm_num
          · rcases List.mem_cons.mp hc2 with rfl | hc3
            · norm_num
            · simp at hc3)
    exact ⟨bs, hid, he, hd⟩

theorem C2_empty_cluster_omission_witness :
    ∃ bs, instanceToDict [⟨[], [77], 1, 0, 0, 0, []⟩, ⟨[], [78], 2, 0, 0, 0, []⟩] []
        = some ⟨2, fullClassName ⟨[], [78], 2, 0, 0, 0, []⟩,
            [(2, 0, 0, 0), (1, 0, 0, 0)], [[], []]⟩
      ∧ objectEncode ⟨2, fullClassName ⟨[], [78], 2, 0, 0, 0, []⟩,
            [(2, 0, 0, 0), (1, 0, 0, 0)], [[], []]⟩ = some bs
      ∧ objectDecode [] bs
        = some (.unresolved ⟨2, fullClassName ⟨[], [78], 2, 0, 0, 0, []⟩,
            [(2, 0, 0, 0), (1, 0, 0, 0)], [[], []]⟩) :=
  C2_empty_cluster_omission.2.2.2 ⟨[], [77], 1, 0, 0, 0, []⟩ ⟨[], [78], 2, 0, 0, 0, []⟩ []
    rfl rfl (by decide) (by decide) (by decide)
    (by decide) (by decide) (by decide) (by decide)
    (by decide) (by decide) (by decide) (by decide)

/-- C1 counterexample: on the 12-byte stream 00000001 00000000 00000007
with 4-byte elements, the first k with k*4 + prod(dims)*elemSize equal to
the remainder is k = 3 with dims [1, 0, 7], which the claim-literal search
accepts, while the code aborts its search at the zero dimension and falls
back to a 1-D parse of one element. -/
theorem C1_zero_dim_counterexample :
    arrayParse (some 4) (sdec .i32) [0,0,0,1, 0,0,0,0, 0,0,0,7]
      = some (.arr (.cons (.int 0) .nil), [0,0,0,7])
    ∧ specArrayParse 4 (sdec .i32) [0,0,0,1, 0,0,0,0, 0,0,0,7]
      = some (.arr (.cons (.arr .nil) .nil), [])
    ∧ arrayParse (some 4) (sdec .i32) [0,0,0,1, 0,0,0,0, 0,0,0,7]
      ≠ specArrayParse 4 (sdec .i32) [0,0,0,1, 0,0,0,0, 0,0,0,7] := by
  refine ⟨rfl, rfl, fun h => ?_⟩
  rw [show arrayParse (some 4) (sdec .i32) [0,0,0,1, 0,0,0,0, 0,0,0,7]
      = some (.arr (.cons (.int 0) .nil), [0,0,0,7]) from rfl,
    show specArrayParse 4 (sdec .i32) [0,0,0,1, 0,0,0,0, 0,0,0,7]
      = some (.arr (.cons (.arr .nil) .nil), []) from rfl] at h
  simp at h

def mat2x3 (a b c d e f : Int) : LVVal :=
  .arr (toLVList [.arr (toLVList [.int a, .int b, .int c]), .arr (toLVList [.int d, .int e, .int f])])

theorem intEnc_length (k : Nat) (x : Int) (bsx : List Nat) (hx : intEnc k x = some bsx) :
    bsx.length = k := by
  rw [intEnc] at hx
  by_cases hr : -(2 ^ (8 * k - 1) : Int) ≤ x ∧ x < 2 ^ (8 * k - 1)
  · rw [if_pos hr] at hx
    cases hx
    exact natToBe_length k _
  · rw [if_neg hr] at hx
    exact Option.noConfusion hx

theorem mat2x3_roundtrip (a b c d e f : Int)
    (ha1 : -(2 ^ 31) ≤ a) (ha2 : a < 2 ^ 31) (hb1 : -(2 ^ 31) ≤ b) (hb2 : b < 2 ^ 31)
    (hc1 : -(2 ^ 31) ≤ c) (hc2 : c < 2 ^ 31) (hd1 : -(2 ^ 31) ≤ d) (hd2 : d < 2 ^ 31)
    (he1 : -(2 ^ 31) ≤ e) (he2 : e < 2 ^ 31) (hf1 : -(2 ^ 31) ≤ f) (hf2 : f < 2 ^ 31) :
    ∃ bs, fenc (.array .i32) (mat2x3 a b c d e f) = some bs
      ∧ fdec (.array .i32) bs = some (mat2x3 a b c d e f, []) := by
  obtain ⟨ea, hea, _⟩ := intDec_intEnc 4 (by norm_num) a ha1 ha2 []
  obtain ⟨eb, heb, _⟩ := intDec_intEnc 4 (by norm_num) b hb1 hb2 []
  obtain ⟨ec, hec, _⟩ := intDec_intEnc 4 (by norm_num) c hc1 hc2 []
  obtain ⟨ed, hed, _⟩ := intDec_intEnc 4 (by norm_num) d hd1 hd2 []
  obtain ⟨ee, hee, _⟩ := intDec_intEnc 4 (by norm_num) e he1 he2 []
  obtain ⟨ef, hef, _⟩ := intDec_intEnc 4 (by norm_num) f hf1 hf2 []
  have hea2 : senc .i32 (.int a) = some ea := hea
  have heb2 : senc .i32 (.int b) = some eb := heb
  have hec2 : senc .i32 (.int c) = some ec := hec
  have hed2 : senc .i32 (.int d) = some ed := hed
  have hee2 : senc .i32 (.int e) = some ee := hee
  have hef2 : senc .i32 (.int f) = some ef := hef
  have hfalsy : isFalsy (mat2x3 a b c d e f) = false := rfl
  have hdims : getDims (mat2x3 a b c d e f) = [2, 3] := rfl
  have hflat : flattenLV (mat2x3 a b c d e f)
      = [.int a, .int b, .int c, .int d, .int e, .int f] := rfl
  have hbe : buildElems (senc .i32) [.int a, .int b, .int c, .int d, .int e, .int f]
      = some (ea ++ (eb ++ (ec ++ (ed ++ (ee ++ (ef ++ [])))))) := by
    simp only [buildElems, hea2, heb2, hec2, hed2, hee2, hef2, Option.map_some']
  have henc : fenc (.array .i32) (mat2x3 a b c d e f)
      = some (u32be 2 ++ (u32be 3 ++ (ea ++ (eb ++ (ec ++ (ed ++ (ee ++ ef))))))) := by
    show arrayBuild (senc .i32) (mat2x3 a b c d e f) = _
    rw [arrayBuild, if_neg (by rw [hfalsy]; simp)]
    simp only [hdims, hflat, hbe]
    norm_num [List.flatMap]
  refine ⟨_, henc, ?_⟩
  have hla : ea.length = 4 := intEnc_length 4 a ea hea
  have hlb : eb.length = 4 := intEnc_length 4 b eb heb
  have hlc : ec.length = 4 := intEnc_length 4 c ec hec
  have hld : ed.length = 4 := intEnc_length 4 d ed hed
  have hle : ee.length = 4 := intEnc_length 4 e ee hee
  have hlf : ef.length = 4 := intEnc_length 4 f ef hef
  have hBlen : (u32be 2 ++ (u32be 3 ++ (ea ++ (eb ++ (ec ++ (ed ++ (ee ++ ef))))))).length = 32 := by
    simp [List.length_append, u32be, natToBe_length, hla, hlb, hlc, hld, hle, hlf]
  have hda : ∀ r, sdec .i32 (ea ++ r) = some (.int a, r) := fun r => by
    simp [sdec, intDec_of_enc 4 (by norm_num) a ea r hea]
  have hdb : ∀ r, sdec .i32 (eb ++ r) = some (.int b, r) := fun r => by
    simp [sdec, intDec_of_enc 4 (by norm_num) b eb r heb]
  have hdc : ∀ r, sdec .i32 (ec ++ r) = some (.int c, r) := fun r => by
    simp [sdec, intDec_of_enc 4 (by norm_num) c ec r hec]
  have hdd : ∀ r, sdec .i32 (ed ++ r) = some (.int d, r) := fun r => by
    simp [sdec, intDec_of_enc 4 (by norm_num) d ed r hed]
  have hde : ∀ r, sdec .i32 (ee ++ r) = some (.int e, r) := fun r => by
    simp [sdec, intDec_of_enc 4 (by norm_num) e ee r hee]
  have hdf : ∀ r, sdec .i32 (ef ++ r) = some (.int f, r) := fun r => by
    simp [sdec, intDec_of_enc 4 (by norm_num) f ef r hef]
  have hpe : parseElems (sdec .i32) 6 (ea ++ (eb ++ (ec ++ (ed ++ (ee ++ ef)))))
      = some ([.int a, .int b, .int c, .int d, .int e, .int f], []) := by
    have h := parseElems_concat (sdec .i32)
      [(.int a, ea), (.int b, eb), (.int c, ec), (.int d, ed), (.int e, ee), (.int f, ef)] []
      (by
        intro p hp r
        simp only [List.mem_cons, List.not_mem_nil, or_false] at hp
        rcases hp with rfl | rfl | rfl | rfl | rfl | rfl
        · exact hda r
        · exact hdb r
        · exact hdc r
        · exact hdd r
        · exact hde r
        · exact hdf r)
    simpa using h
  have hdl : dimLoop 4 32 9 [2] (u32be 3 ++ (ea ++ (eb ++ (ec ++ (ed ++ (ee ++ ef))))))
      = some ([2, 3], ea ++ (eb ++ (ec ++ (ed ++ (ee ++ ef))))) := by
    have h9 : dimLoop 4 32 9 [2] (u32be 3 ++ (ea ++ (eb ++ (ec ++ (ed ++ (ee ++ ef))))))
        = dimLoop 4 32 (8 + 1) [2] (u32be 3 ++ (ea ++ (eb ++ (ec ++ (ed ++ (ee ++ ef)))))) := rfl
    rw [h9, dimLoop, if_neg (by decide), if_neg (by decide), if_neg (by decide),
      readU32_u32be 3 (by norm_num)]
    simp only [if_neg (show ¬(3 : Nat) = 0 by norm_num)]
    have h8 : dimLoop 4 32 8 ([2] ++ [3]) (ea ++ (eb ++ (ec ++ (ed ++ (ee ++ ef)))))
        = dimLoop 4 32 (7 + 1) [2, 3] (ea ++ (eb ++ (ec ++ (ed ++ (ee ++ ef))))) := rfl
    rw [h8, dimLoop, if_pos (by decide)]
  show arrayParse (some 4) (sdec .i32)
      (u32be 2 ++ (u32be 3 ++ (ea ++ (eb ++ (ec ++ (ed ++ (ee ++ ef))))))) = _
  rw [arrayParse, if_neg (by rw [hBlen]; norm_num), readU32_u32be 2 (by norm_num)]
  simp only [if_neg (show ¬(2 : Nat) = 0 by norm_num), hBlen, hdl, hpe]
  have hprod : List.prod [2, 3] = 6 := rfl
  rw [hprod] at *
  simp [hpe, mat2x3, toLVList]

/-- C1 as amended: for every byte stream and element codec of fixed wire
size, array decode reads a first u32 v0 and searches candidate dimension
lists, reading one more u32 per step, growing only while the candidate
byte count stays below the remainder, each new u32 is nonzero, and fewer
than ten candidates exist (the tenth is never tested); it accepts the
first candidate k with k*4 + prod(dims)*elemSize equal to the remaining
byte count, and otherwise falls back to treating v0 as a 1-D element
count, rewinding to just after v0; in particular the encoding of a 2-by-3
32-bit-integer array decodes back to a 2-row, 3-column nested sequence. -/
theorem C1_dimension_search :
    (∀ (esz : Nat) (pe : List Nat → Option (LVVal × List Nat)) (input : List Nat),
      arrayParse (some esz) pe input = amendedArrayParse esz pe input)
    ∧ (∀ a b c d e f : Int,
      -(2 ^ 31) ≤ a → a < 2 ^ 31 → -(2 ^ 31) ≤ b → b < 2 ^ 31 →
      -(2 ^ 31) ≤ c → c < 2 ^ 31 → -(2 ^ 31) ≤ d → d < 2 ^ 31 →
      -(2 ^ 31) ≤ e → e < 2 ^ 31 → -(2 ^ 31) ≤ f → f < 2 ^ 31 →
      ∃ bs, fenc (.array .i32) (mat2x3 a b c d e f) = some bs
        ∧ fdec (.array .i32) bs = some (mat2x3 a b c d e f, [])) := by
  refine ⟨?_, mat2x3_roundtrip⟩
  intro esz pe input
  simp only [arrayParse, amendedArrayParse, dimLoop_eq_find]

theorem C1_dimension_search_witness :
    ∃ bs, fenc (.array .i32) (mat2x3 1 2 3 4 5 6) = some bs
      ∧ fdec (.array .i32) bs = some (mat2x3 1 2 3 4 5 6, []) :=
  C1_dimension_search.2 1 2 3 4 5 6 (by norm_num) (by norm_num) (by norm_num) (by norm_num)
    (by norm_num) (by norm_num) (by norm_num) (by norm_num) (by norm_num) (by norm_num)
    (by norm_num) (by norm_num)
